import Mathlib

/-!
Verification of the NASA_CMR_AGENT repository against its specification.

Shallow embedding conventions:
* Python floats and wall-clock timestamps are modelled as rationals.
* Python dictionaries read through `.get` chains are modelled as structures
  whose fields are `Option`-valued where the corresponding key may be absent.
* Fallible Python code is modelled with `Option`/`Except`.
-/

/-! ## Circuit breaker (src/cmr_agent/cmr/circuit.py) -/

/-- State of `CircuitBreaker`: `failure_threshold`, `recovery_time_seconds`,
`failures`, `open_until`.  The Python field `open_until` is a float that is
falsy exactly when it equals `0.0`. -/
structure CircuitBreaker where
  failureThreshold : ℕ
  recoveryTimeSeconds : ℚ
  failures : ℕ
  openUntil : ℚ
deriving DecidableEq, Repr

/-- `CircuitBreaker()` constructed with the default arguments
`failure_threshold = 5`, `recovery_time_seconds = 30`, starting with
`failures = 0` and `open_until = 0.0`. -/
def CircuitBreaker.init : CircuitBreaker :=
  { failureThreshold := 5, recoveryTimeSeconds := 30, failures := 0, openUntil := 0 }

/-- `allow()`: returns `False` when `open_until` is truthy (nonzero) and
`time.time() < open_until`; otherwise `True`.  `now` stands for `time.time()`. -/
def CircuitBreaker.allow (cb : CircuitBreaker) (now : ℚ) : Bool :=
  if cb.openUntil ≠ 0 ∧ now < cb.openUntil then false else true

/-- `record_success()`: sets `failures = 0` and `open_until = 0.0`. -/
def CircuitBreaker.recordSuccess (cb : CircuitBreaker) : CircuitBreaker :=
  { cb with failures := 0, openUntil := 0 }

/-- `record_failure()`: increments `failures`; when the new count reaches
`failure_threshold`, sets `open_until = time.time() + recovery_time_seconds`. -/
def CircuitBreaker.recordFailure (cb : CircuitBreaker) (now : ℚ) : CircuitBreaker :=
  let f := cb.failures + 1
  { cb with
    failures := f
    openUntil := if cb.failureThreshold ≤ f then now + cb.recoveryTimeSeconds else cb.openUntil }

/-- A sequence of `record_failure()` calls, one per timestamp in the list. -/
def applyFailures (cb : CircuitBreaker) (ts : List ℚ) : CircuitBreaker :=
  ts.foldl CircuitBreaker.recordFailure cb

/-- Operations of the `CircuitBreaker` API.  `allowAt` is the read-only query
`allow()` issued at a given time; it performs no state mutation in the source. -/
inductive CBOp where
  | allowAt (now : ℚ)
  | success
  | failureAt (now : ℚ)

/-- Effect of one API call on the breaker state.  `allow()` contains no
assignment in the source, so `allowAt` leaves the state unchanged. -/
def CBOp.apply (cb : CircuitBreaker) : CBOp → CircuitBreaker
  | .allowAt _ => cb
  | .success => cb.recordSuccess
  | .failureAt t => cb.recordFailure t

/-- Run a list of breaker operations from a starting state. -/
def runOps (cb : CircuitBreaker) (ops : List CBOp) : CircuitBreaker :=
  ops.foldl CBOp.apply cb

/-! ## Async CMR client (src/cmr_agent/cmr/client.py) -/

/-- Outcome of one attempted HTTP GET: either a response with a status code
and an (already JSON-decoded) body, or a transport-level error. -/
inductive HttpOutcome where
  | response (status : ℕ) (body : String)
  | transportError (msg : String)
deriving DecidableEq, Repr

/-- Result of one `_safe_get` body execution. -/
inductive AttemptResult where
  | ok (body : String)
  | circuitOpen
  | httpFailure (o : HttpOutcome)
deriving DecidableEq, Repr

/-- `resp.raise_for_status()` passes exactly for 2xx status codes. -/
def is2xx (status : ℕ) : Bool := 200 ≤ status ∧ status < 300

/-- One execution of the `_safe_get` body: check the breaker, then issue the
request.  A disallowed call raises the circuit-open `RuntimeError` without
touching the breaker; a transport error or non-2xx status records one breaker
failure and propagates; a 2xx response records one breaker success and
returns the decoded body. -/
def safeGetOnce (cb : CircuitBreaker) (now : ℚ) (o : HttpOutcome) :
    AttemptResult × CircuitBreaker :=
  if cb.allow now = false then (.circuitOpen, cb)
  else
    match o with
    | .response st body =>
        if is2xx st then (.ok body, cb.recordSuccess)
        else (.httpFailure (.response st body), cb.recordFailure now)
    | .transportError m => (.httpFailure (.transportError m), cb.recordFailure now)

/-- The retry configuration placed on `_safe_get`:
`stop_after_attempt(3)` and `wait_exponential(multiplier=0.5, min=0.5, max=3)`
with the exponential base 2. -/
structure RetryConfig where
  maxAttempts : ℕ
  waitMultiplier : ℚ
  waitMin : ℚ
  waitMax : ℚ
  waitBase : ℚ
deriving DecidableEq, Repr

/-- The configuration used by `AsyncCMRClient._safe_get`. -/
def clientRetryConfig : RetryConfig :=
  { maxAttempts := 3, waitMultiplier := 1/2, waitMin := 1/2, waitMax := 3, waitBase := 2 }

/-- The exponential backoff wait, clamped between the configured minimum and
maximum. -/
def waitAfter (c : RetryConfig) (n : ℕ) : ℚ :=
  max c.waitMin (min (c.waitMultiplier * c.waitBase ^ n) c.waitMax)

/-- Final result of the retried `_safe_get` call. -/
inductive RetryOutcome where
  | ok (body : String)
  | retryExhausted (last : AttemptResult)
deriving DecidableEq, Repr

/-- The retry loop: run one attempt; a success returns its body, a failing
attempt (circuit-open included) consumes one attempt and is retried while
attempts remain, the last failure becoming the terminal retry-exhausted
error.  `script n` provides the wall-clock time and network outcome that
attempt number `n` would observe.  Returns the outcome, the final breaker
state, and the number of attempts performed. -/
def tenacityGo (script : ℕ → ℚ × HttpOutcome) (attempt : ℕ) (remaining : ℕ)
    (cb : CircuitBreaker) : RetryOutcome × CircuitBreaker × ℕ :=
  let t := (script attempt).1
  let o := (script attempt).2
  let step := safeGetOnce cb t o
  match step.1 with
  | .ok b => (.ok b, step.2, attempt + 1)
  | r =>
    match remaining with
    | 0 => (.retryExhausted r, step.2, attempt + 1)
    | rem + 1 => tenacityGo script (attempt + 1) rem step.2

/-- The whole `_safe_get` call: the body under the tenacity retry decorator,
3 attempts in total. -/
def safeGet (script : ℕ → ℚ × HttpOutcome) (cb : CircuitBreaker) :
    RetryOutcome × CircuitBreaker × ℕ :=
  tenacityGo script 0 (clientRetryConfig.maxAttempts - 1) cb

/-- An attempt outcome that can never produce a 2xx response. -/
def noSuccess (o : HttpOutcome) : Bool :=
  match o with
  | .response st _ => !(is2xx st)
  | .transportError _ => true

/-! ## Utility helpers (src/cmr_agent/utils.py) -/

/-- Integer value of the four matched digit characters, as by `int(y)`. -/
def yearOf (c1 c2 c3 c4 : Char) : ℕ :=
  ((c1.toNat - 48) * 10 + (c2.toNat - 48)) * 100 + (c3.toNat - 48) * 10 + (c4.toNat - 48)

/-- The alternation `(?:19|20)` of the year regex, applied at the first two
characters of a candidate match. -/
def yearStart (c1 c2 : Char) : Bool :=
  (c1 == '1' && c2 == '9') || (c1 == '2' && c2 == '0')

/-- Left-to-right non-overlapping scan of `re.findall(r"((?:19|20)\d\d)", text)`
(the utils regex has no word boundaries): at each position, a match consumes
four characters; otherwise scanning advances by one character. -/
def findYears : List Char → List ℕ
  | c1 :: c2 :: c3 :: c4 :: rest =>
    if yearStart c1 c2 && c3.isDigit && c4.isDigit then
      yearOf c1 c2 c3 c4 :: findYears rest
    else
      findYears (c2 :: c3 :: c4 :: rest)
  | _ => []

/-- `datetime(y, 1, 1).strftime` of the start-of-year instant; every matched
year has four digits, so `toString` agrees with the zero-padded `%Y`. -/
def isoStart (y : ℕ) : String := toString y ++ "-01-01T00:00:00Z"

/-- `datetime(y, 12, 31, 23, 59, 59).strftime` of the end-of-year instant. -/
def isoEnd (y : ℕ) : String := toString y ++ "-12-31T23:59:59Z"

/-- `infer_temporal`: collect year matches; with at least two matches
(counting repeats), sort them and format the first and last; otherwise return
the null pair. -/
def inferTemporal (text : List Char) : Option String × Option String :=
  let years := findYears text
  if 2 ≤ years.length then
    match years.mergeSort (fun a b => decide (a ≤ b)) with
    | [] => (none, none)
    | y0 :: rest =>
        (some (isoStart y0), some (isoEnd ((y0 :: rest).getLastD 0)))
  else (none, none)

/-- ASCII model of `str.lower()`. -/
def pyLower (s : List Char) : List Char := s.map Char.toLower

/-- Model of `str.strip()`: drop leading and trailing whitespace. -/
def pyStrip (s : List Char) : List Char :=
  ((s.dropWhile Char.isWhitespace).reverse.dropWhile Char.isWhitespace).reverse

/-- `REGION_TO_BBOX` of utils, in dictionary insertion order, values being
the `(W, S, E, N)` tuples. -/
def REGION_TO_BBOX : List (String × (ℚ × ℚ × ℚ × ℚ)) :=
  [("sub-saharan africa", (-20, -35, 52, 20)),
   ("subsaharan africa", (-20, -35, 52, 20)),
   ("sub saharan africa", (-20, -35, 52, 20)),
   ("ssa", (-20, -35, 52, 20)),
   ("global", (-180, -90, 180, 90))]

/-- The Python substring test `needle in hay`. -/
def containsSub (needle : List Char) : List Char → Bool
  | [] => needle.isEmpty
  | c :: rest => needle.isPrefixOf (c :: rest) || containsSub needle rest

/-- `infer_bbox`: first region key that is a substring of the lowered text. -/
def inferBbox (text : List Char) : Option (ℚ × ℚ × ℚ × ℚ) :=
  (REGION_TO_BBOX.find? (fun kv => containsSub kv.1.toList (pyLower text))).map (·.2)

/-! ## Validation agent (src/cmr_agent/agents/validation_agent.py) -/

/-- A character of the regex class `\w` (ASCII model). -/
def isWordChar (c : Char) : Bool := c.isAlphanum || c == '_'

/-- Word-boundary test against the character preceding a candidate match
(`none` at the start of the text). -/
def prevBoundary : Option Char → Bool
  | none => true
  | some p => !isWordChar p

/-- Word-boundary test against the characters following a candidate match. -/
def nextBoundary : List Char → Bool
  | [] => true
  | c :: _ => !isWordChar c

/-- Scan of the validation regex `\b(?:19|20)\d\d\b`, with word boundaries on
both sides of each four-digit match; `prev` is the character before the
current position. -/
def findYearsBounded : Option Char → List Char → List ℕ
  | prev, c1 :: c2 :: c3 :: c4 :: rest =>
    if prevBoundary prev && yearStart c1 c2 && c3.isDigit && c4.isDigit
        && nextBoundary rest then
      yearOf c1 c2 c3 c4 :: findYearsBounded (some c4) rest
    else
      findYearsBounded (some c1) (c2 :: c3 :: c4 :: rest)
  | _, _ => []

/-- Keys of the `REGIONS` gazetteer of the validation agent, in insertion
order. -/
def REGIONS : List String :=
  ["sub-saharan africa", "subsaharan africa", "sub saharan africa", "ssa", "global"]

/-- Structured feedback returned by `ValidationAgent.run`. -/
structure ValidationResult where
  feasible : Bool
  reasons : List String
  suggestedAlternatives : List String
deriving DecidableEq, Repr

/-- The empty-query fatal check: `not query or not query.strip()`. -/
def vEmptyQ (query : List Char) : Bool := query.isEmpty || (pyStrip query).isEmpty

/-- The out-of-scope fatal check: a banned phrase occurs in the lowered
query. -/
def vBanned (query : List Char) : Bool :=
  (["medical records", "social security", "bank account"] : List String).any
    (fun b => containsSub b.toList (pyLower query))

/-- The year list of the validation agent (regex with word boundaries). -/
def vYears (query : List Char) : List ℕ := findYearsBounded none query

/-- The temporal fatal check `len(years) >= 2 and years[0] > years[-1]`. -/
def vStartAfterEnd (query : List Char) : Bool :=
  decide (2 ≤ (vYears query).length) &&
    decide ((vYears query).getLastD 0 < (vYears query).headD 0)

/-- The region check: a gazetteer key occurs in the lowered query, or a
bounding box is inferable. -/
def vHasRegion (query : List Char) : Bool :=
  REGIONS.any (fun r => containsSub r.toList (pyLower query)) || (inferBbox query).isSome

/-- `ValidationAgent.run`, translated statement by statement: `feasible`
starts true and is cleared by each fatal check; `reasons` accumulates the
message of every triggered check in source order; `suggested_alternatives`
is filled with the region keys when the region reason was appended. -/
def validationRun (query : List Char) (subqueries : List (List Char)) : ValidationResult :=
  let feasible0 := true
  let reasons0 : List String := []
  let feasible1 := if vEmptyQ query then false else feasible0
  let reasons1 := if vEmptyQ query then reasons0 ++ ["Empty query"] else reasons0
  let reasons2 :=
    if query.length < 8 then reasons1 ++ ["Very short query; may be ambiguous"] else reasons1
  let feasible2 := if vBanned query then false else feasible1
  let reasons3 := if vBanned query then reasons2 ++ ["Out-of-scope content detected"] else reasons2
  let years := vYears query
  let reasons4 := if years.isEmpty then reasons3 ++ ["No temporal bounds detected"] else reasons3
  let feasible3 := if !years.isEmpty && vStartAfterEnd query then false else feasible2
  let reasons5 :=
    if !years.isEmpty && vStartAfterEnd query then reasons4 ++ ["Start year after end year"]
    else reasons4
  let feasible4 := if !vHasRegion query then false else feasible3
  let reasons6 := if !vHasRegion query then reasons5 ++ ["Region not recognized"] else reasons5
  let reasons7 :=
    if 5 < subqueries.length then reasons6 ++ ["High complexity; will decompose into steps"]
    else reasons6
  let alternatives := if "Region not recognized" ∈ reasons7 then REGIONS else []
  ⟨feasible4, reasons7, alternatives⟩

/-! ## Planning agent (src/cmr_agent/agents/planning_agent.py) -/

/-- String form of `str.lower()` (ASCII model). -/
def pyLowerS (s : String) : String := ⟨pyLower s.toList⟩

/-- String form of `str.strip()`. -/
def pyStripS (s : String) : String := ⟨pyStrip s.toList⟩

/-- `str.isdigit()` (ASCII model): nonempty and all characters decimal digits. -/
def pyIsDigit (s : String) : Bool := !s.isEmpty && s.toList.all Char.isDigit

/-- `t.replace("-", "")`. -/
def removeHyphens (s : String) : String := ⟨s.toList.filter (fun c => !(c == '-'))⟩

/-- `lowered.replace(",", " ")`. -/
def commasToSpaces (s : List Char) : List Char :=
  s.map (fun c => if c == ',' then ' ' else c)

/-- `str.split()` with no argument: split on whitespace runs, dropping empty
pieces. -/
def pySplitWs (s : List Char) : List String :=
  ((s.splitOnP Char.isWhitespace).filter (fun p => !p.isEmpty)).map (fun l => ⟨l⟩)

/-- The seed list of `PlanningAgent.run`: stripped nonempty subqueries,
followed by the stripped tokens of the lowered, comma-flattened user query. -/
def seedsOf (userQuery : String) (subqueries : List String) : List String :=
  subqueries.filterMap (fun s =>
    if s.isEmpty then none
    else if (pyStripS s).isEmpty then none
    else some (pyStripS s)) ++
  (pySplitWs (commasToSpaces (pyLower userQuery.toList))).filterMap (fun t =>
    if (pyStripS t).isEmpty then none else some (pyStripS t))

/-- `_baseline_synonyms`: when a rain-like term is present, append
"precipitation", "imerg" and "trmm" unless already present. -/
def baselineSynonyms (terms : List String) : List String :=
  if "rain" ∈ terms ∨ "rainfall" ∈ terms then
    (["precipitation", "imerg", "trmm"] : List String).foldl
      (fun out s => if s ∈ out then out else out ++ [s]) terms
  else terms

/-- One step of `list(dict.fromkeys(l))`: keep an unseen key. -/
def dedupStep (acc : List String) (t : String) : List String :=
  if t ∈ acc then acc else acc ++ [t]

/-- `list(dict.fromkeys(l))`: deduplicate keeping the first occurrence. -/
def dedupKeepFirst (l : List String) : List String :=
  l.foldl dedupStep []

/-- `_expand_terms`: lower the seeds, append the (lowered, stripped, nonempty,
unseen) LLM-proposed terms, inject the baseline synonyms and deduplicate.
`llmTerms = []` covers the no-LLM path and a failed LLM JSON parse, both of
which add nothing. -/
def llmStep (acc : List String) (term : String) : List String :=
  let t := pyStripS (pyLowerS term)
  if !t.isEmpty && !(decide (t ∈ acc)) then acc ++ [t] else acc

def expandTerms (seeds : List String) (llmTerms : List String) : List String :=
  let expanded0 := seeds.filterMap (fun s => if s.isEmpty then none else some (pyLowerS s))
  let expanded1 := llmTerms.foldl llmStep expanded0
  dedupKeepFirst (baselineSynonyms expanded1)

/-- The fixed stopword set of `PlanningAgent.run`. -/
def STOPWORDS : List String :=
  ["over", "in", "the", "a", "an", "and", "or", "to", "of", "for", "on", "with"]

/-- The normalization `term.strip().lower()` applied inside the variable-term
loop. -/
def normTerm (t : String) : String := pyLowerS (pyStripS t)

/-- The variable-term loop of `PlanningAgent.run`: normalize each expanded
term, drop empties, numeric tokens (digits after removing hyphens) and
stopwords, and deduplicate preserving order. -/
def bvtStep (vt : List String) (term : String) : List String :=
  let t := normTerm term
  if t.isEmpty then vt
  else if pyIsDigit (removeHyphens t) then vt
  else if t ∈ STOPWORDS then vt
  else if t ∈ vt then vt
  else vt ++ [t]

def buildVariableTerms (expanded : List String) : List String :=
  expanded.foldl bvtStep []

/-- The `fallback_synonyms` table of `PlanningAgent.run`. -/
def fallbackSynonyms : List (String × List String) :=
  [("rainfall", ["precipitation"]), ("imerg", ["precipitation"]), ("trmm", ["precipitation"])]

/-- The trailing loop of `PlanningAgent.run` that appends the fallback
synonyms of every base term present in the list. -/
def addFallbackSynonyms (vt : List String) : List String :=
  fallbackSynonyms.foldl (fun out kv =>
    if kv.1 ∈ out then
      kv.2.foldl (fun o s => if s ∈ o then o else o ++ [s]) out
    else out) vt

/-- The `expanded_terms` entry of the plan produced by `PlanningAgent.run`. -/
def planExpandedTerms (userQuery : String) (subqueries : List String)
    (llmTerms : List String) : List String :=
  expandTerms (seedsOf userQuery subqueries) llmTerms

/-- The `variable_terms` entry of the plan produced by `PlanningAgent.run`. -/
def planVariableTerms (userQuery : String) (subqueries : List String)
    (llmTerms : List String) : List String :=
  addFallbackSynonyms (buildVariableTerms (planExpandedTerms userQuery subqueries llmTerms))

/-! ## CMR orchestrator agent (src/cmr_agent/agents/cmr_agent.py) -/

/-- A CMR item as consumed by the orchestrator: the concept id read through
`(item.get("meta") or {}).get("concept-id")`, with the rest of the JSON
record abstracted into `body`. -/
structure CmrItem where
  conceptId : Option String
  body : String
deriving DecidableEq, Repr

/-- The collection-merge loop of `run_stage`: one pass over the concatenated
item lists, keeping an item when it has a concept id not seen before. -/
def dedupByConceptId : List CmrItem → List String → List CmrItem
  | [], _ => []
  | c :: rest, seen =>
    match c.conceptId with
    | some cid =>
        if cid ∈ seen then dedupByConceptId rest seen
        else c :: dedupByConceptId rest (cid :: seen)
    | none => dedupByConceptId rest seen

/-- `merged_items` of `run_stage`: all collection result sets (keyword,
short-name, science-keyword, concept-id batch, cache hits) flattened and
deduplicated by concept id with an initially empty `merge_seen` set. -/
def mergeCollections (resultsList : List (List CmrItem)) : List CmrItem :=
  dedupByConceptId resultsList.flatten []

/-- The merged variable item list of a stage:
`sum((vres.get("items", []) for vres in var_results), [])`. -/
def stageVariableItems (varResults : List (List CmrItem)) : List CmrItem :=
  varResults.flatten

/-- The merged granule item list of a stage: successive
`combined_granules_items.extend(...)` over the non-exception granule
results. -/
def combinedGranuleItems (granuleResults : List (List CmrItem)) : List CmrItem :=
  granuleResults.flatten

/-! ## Circuit-tripped flag plumbing
(src/cmr_agent/agents/cmr_agent.py and src/cmr_agent/graph/pipeline.py) -/

/-- Outcome of one search-client call as observed by the orchestrator:
either an item list, or a raised exception whose `isCircuitOpen` flag models
the test `isinstance(res, RuntimeError) and "circuit" in str(res).lower()`. -/
inductive CallOutcome where
  | ok (items : List CmrItem)
  | err (isCircuitOpen : Bool)
deriving DecidableEq, Repr

/-- Whether one call outcome makes the orchestrator set `circuit_tripped`. -/
def CallOutcome.trips : CallOutcome → Bool
  | .ok _ => false
  | .err c => c

/-- The call outcomes observed by one `run_stage` execution, in the order
the source inspects them: per-term variable searches, the keyword collection
search, the short-name and science-keyword searches, the concept-id batch
(`none` when it did not raise), and the per-collection granule fetches. -/
structure StageOutcomes where
  varResults : List CallOutcome
  kwCols : CallOutcome
  extraResults : List CallOutcome
  colsByIdErr : Option Bool
  granuleResults : List CallOutcome
deriving Repr

/-- `self.circuit_tripped` after one `run_stage`, starting from `t0`: each
inspection site sets the flag on a circuit-open error and never clears it. -/
def runStageTripped (t0 : Bool) (so : StageOutcomes) : Bool :=
  let t1 := so.varResults.foldl (fun t r => t || r.trips) t0
  let t2 := t1 || so.kwCols.trips
  let t3 := so.extraResults.foldl (fun t r => t || r.trips) t2
  let t4 := t3 || (match so.colsByIdErr with | some c => c | none => false)
  so.granuleResults.foldl (fun t r => t || r.trips) t4

/-- The dictionary returned by `CMRAgent.run`; `circuitBreakerTripped = none`
models a returned dictionary without the `circuit_breaker_tripped` key. -/
structure RunResult where
  circuitBreakerTripped : Option Bool
deriving DecidableEq, Repr

/-- The staged branch of `CMRAgent.run`: `self.circuit_tripped` is updated by
every stage, but the branch returns only `{"searches": searches}`, a
dictionary without the `circuit_breaker_tripped` key.  The first component is
the returned dictionary, the second the final value of the internal
`self.circuit_tripped` attribute. -/
def cmrAgentRunStaged (stages : List StageOutcomes) : RunResult × Bool :=
  ({ circuitBreakerTripped := none }, stages.foldl runStageTripped false)

/-- The outcomes of the three concurrent calls of one plain-mode
`search_for`: collections, granules, variables. -/
structure PlainSearchOutcomes where
  collectionsCall : CallOutcome
  granulesCall : CallOutcome
  variablesCall : CallOutcome
deriving Repr

/-- `self.circuit_tripped` after the `handle` calls of one `search_for`. -/
def plainSearchTripped (t0 : Bool) (so : PlainSearchOutcomes) : Bool :=
  ((t0 || so.collectionsCall.trips) || so.granulesCall.trips) || so.variablesCall.trips

/-- The plain branch of `CMRAgent.run`: the returned dictionary carries
`circuit_breaker_tripped = self.circuit_tripped or (not circuit.allow())`. -/
def cmrAgentRunPlain (searches : List PlainSearchOutcomes) (cbOpenAtEnd : Bool) :
    RunResult × Bool :=
  let tripped := searches.foldl plainSearchTripped false
  ({ circuitBreakerTripped := some (tripped || cbOpenAtEnd) }, tripped)

/-- `cmr_step` of the pipeline:
`state["circuit_breaker_tripped"] = res.get("circuit_breaker_tripped", False)`. -/
def cmrStepFlag (res : RunResult) : Bool :=
  res.circuitBreakerTripped.getD false

/-- The `failover.circuit_breaker_tripped` field of the final structured
response built by `synthesis_step`:
`state.get("circuit_breaker_tripped", False)`. -/
def finalResponseFlag (stateFlag : Bool) : Bool := stateFlag

/-! ## Cross-collection map (src/cmr_agent/agents/analysis_agent.py) -/

/-- `col_to_queries.setdefault(cid, []).append(idx)` on an association list
that preserves dictionary insertion order. -/
def appendIdx (m : List (String × List ℕ)) (cid : String) (idx : ℕ) :
    List (String × List ℕ) :=
  match m with
  | [] => [(cid, [idx])]
  | (k, v) :: rest =>
      if k = cid then (k, v ++ [idx]) :: rest
      else (k, v) :: appendIdx rest cid idx

/-- The `col_to_queries` dictionary: for each query index, append the index
once per occurrence of each concept id in that query's related-collections
list. -/
def colToQueries (queries : List (List String)) : List (String × List ℕ) :=
  queries.enum.foldl
    (fun m iq => iq.2.foldl (fun m2 cid => appendIdx m2 cid iq.1) m) []

/-- `cross_collection_map`: the entries of `col_to_queries` whose index list
has more than one element. -/
def crossCollectionMap (queries : List (List String)) : List (String × List ℕ) :=
  (colToQueries queries).filter (fun kv => 1 < kv.2.length)

/-- The per-query `related_collections` list of an analysis query entry: the
concept ids of the collections that have one. -/
def relatedCollectionsOf (cols : List CmrItem) : List String :=
  cols.filterMap (·.conceptId)

/-! ## Analysis agent (src/cmr_agent/agents/analysis_agent.py)

Datetimes are modelled as rationals measured in days, so that
`(a - b).days` becomes the integer floor of the rational difference.
Timestamp and float strings are modelled pre-parsed as `Option ℚ`, `none`
standing for a string whose parse raises.  The knowledge-graph, provider,
title and formatted-date outputs are not inspected by any claim and are not
modelled. -/

/-- A parsed `RangeDateTime`: `none` components model timestamps rejected by
`datetime.fromisoformat` (including the missing-key case turned into the
empty string). -/
structure GranTE where
  beginT : Option ℚ
  endT : Option ℚ
deriving DecidableEq, Repr

/-- One bounding rectangle of a granule; `none` components model values on
which `float(...)` raises. -/
structure GranBox where
  west : Option ℚ
  south : Option ℚ
  east : Option ℚ
  north : Option ℚ
deriving DecidableEq, Repr

/-- A granule item: `te = none` models a missing or empty (falsy)
`RangeDateTime`. -/
structure GranItem where
  te : Option GranTE
  boxes : List GranBox
deriving DecidableEq, Repr

/-- One UMM-C additional attribute. -/
structure AddlAttr where
  name : Option String
  values : List String
deriving DecidableEq, Repr

/-- A collection item as read by the analysis agent. -/
structure ColItem where
  conceptId : Option String
  addlAttrs : List AddlAttr
deriving DecidableEq, Repr

/-- A variable item as read by the analysis agent. -/
structure VarItem where
  name : Option String
  assocConceptIds : List (Option String)
deriving DecidableEq, Repr

/-- One entry of `cmr_results["searches"]`. -/
structure SearchResult where
  query : String
  cols : List ColItem
  grans : List GranItem
  varItems : List VarItem
deriving DecidableEq, Repr

/-- `start = b if start is None or b < start else start`. -/
def updateStart (start : Option ℚ) (b : ℚ) : Option ℚ :=
  match start with
  | none => some b
  | some s => some (if b < s then b else s)

/-- `end = e if end is None or e > end else end`. -/
def updateEnd (endv : Option ℚ) (e : ℚ) : Option ℚ :=
  match endv with
  | none => some e
  | some s => some (if s < e then e else s)

/-- Fold one bounding rectangle into the accumulated bbox; malformed
coordinates are skipped. -/
def boxFold (bbox : Option (ℚ × ℚ × ℚ × ℚ)) (box : GranBox) : Option (ℚ × ℚ × ℚ × ℚ) :=
  match box.west, box.south, box.east, box.north with
  | some w, some s, some e, some n =>
      match bbox with
      | none => some (w, s, e, n)
      | some (w0, s0, e0, n0) => some (min w0 w, min s0 s, max e0 e, max n0 n)
  | _, _, _, _ => bbox

/-- The first granule loop of `AnalysisAgent.run`: accumulate the temporal
extremes and the bbox.  A granule with a truthy `RangeDateTime` whose
timestamps fail to parse hits `continue`, skipping its spatial section too. -/
def granTemporalSpatial (grans : List GranItem) :
    (Option ℚ × Option ℚ) × Option (ℚ × ℚ × ℚ × ℚ) :=
  grans.foldl
    (fun acc g =>
      match g.te with
      | some t =>
          match t.beginT, t.endT with
          | some b, some e =>
              ((updateStart acc.1.1 b, updateEnd acc.1.2 e), g.boxes.foldl boxFold acc.2)
          | _, _ => acc
      | none => (acc.1, g.boxes.foldl boxFold acc.2))
    ((none, none), none)

/-- The interval-collection loop: all `(begin, end)` pairs of granules with a
truthy `RangeDateTime`; `none` when any of them fails to parse, modelling the
exception that empties both `temporal_gaps` and `intervals`. -/
def granIntervals : List GranItem → Option (List (ℚ × ℚ))
  | [] => some []
  | g :: rest =>
      match g.te with
      | none => granIntervals rest
      | some t =>
          match t.beginT, t.endT with
          | some b, some e => (granIntervals rest).map (fun l => (b, e) :: l)
          | _, _ => none

/-- The gap days between consecutive sorted intervals whose start exceeds the
previous end. -/
def consecGaps : List (ℚ × ℚ) → List ℤ
  | a :: b :: rest => (if a.2 < b.1 then [⌊b.1 - a.2⌋] else []) ++ consecGaps (b :: rest)
  | _ => []

/-- `temporal_gaps` reduced to the `gap_days` integers (the only field of a
gap entry any claim inspects; `int(g["gap_days"])` round-trips it). -/
def temporalGapDays (grans : List GranItem) : List ℤ :=
  match granIntervals grans with
  | none => []
  | some ivs => consecGaps (ivs.mergeSort (fun a b => decide (a.1 ≤ b.1)))

/-- The `resolutions` list: additional attributes of the first five
collections whose lowered name starts with "spatial resolution" and whose
value list is nonempty. -/
def colResolutions (cols : List ColItem) : List String :=
  (cols.take 5).flatMap (fun c =>
    c.addlAttrs.filterMap (fun a =>
      if ("spatial resolution".toList.isPrefixOf (pyLower (a.name.getD "").toList)) then
        match a.values with
        | [] => none
        | v :: _ => some v
      else none))

/-- Python bankers rounding of a rational to an integer. -/
def bankersRound (x : ℚ) : ℤ :=
  let f := ⌊x⌋
  let r := x - f
  if r < 1/2 then f else if 1/2 < r then f + 1 else if Even f then f else f + 1

/-- `round(x, n)`. -/
def pyRound (n : ℕ) (x : ℚ) : ℚ := (bankersRound (x * 10 ^ n) : ℚ) / 10 ^ n

/-- A simple decimal model of Python `float(string)`: optional sign, digits,
optional fraction; anything else raises (`none`). -/
def pyFloat (s : String) : Option ℚ :=
  let t := pyStrip s.toList
  let sgn : ℚ × List Char :=
    match t with
    | '-' :: r => (-1, r)
    | '+' :: r => (1, r)
    | r => (1, r)
  let intPart := sgn.2.takeWhile Char.isDigit
  let rest := sgn.2.dropWhile Char.isDigit
  let digitsVal : List Char → ℕ := fun l => l.foldl (fun a c => a * 10 + (c.toNat - 48)) 0
  match rest with
  | [] => if intPart.isEmpty then none else some (sgn.1 * digitsVal intPart)
  | '.' :: frac =>
      if frac.all Char.isDigit && !(intPart.isEmpty && frac.isEmpty) then
        some (sgn.1 * ((digitsVal intPart : ℚ) + (digitsVal frac : ℚ) / 10 ^ frac.length))
      else none
  | _ => none

/-- `temporal_overlap_days()`: zero without both coverage bounds and a
parsable constraint; otherwise the day span of the overlap when nonempty. -/
def temporalOverlapDays (startv endv : Option ℚ)
    (tc : Option (Option ℚ × Option ℚ)) : ℤ :=
  match startv, endv, tc with
  | some s, some e, some (some rs, some re2) =>
      let ls := max s rs
      let ee := min e re2
      if ls ≤ ee then ⌊ee - ls⌋ else 0
  | _, _, _ => 0

/-- `spatial_iou()`: intersection over union of the granule bbox and the
constraint bbox, with the union clamped to 1 when non-positive. -/
def spatialIou (bbox bc : Option (ℚ × ℚ × ℚ × ℚ)) : ℚ :=
  match bbox, bc with
  | some (w1, s1, e1, n1), some (w2, s2, e2, n2) =>
      let interW := max w1 w2
      let interS := max s1 s2
      let interE := min e1 e2
      let interN := min n1 n2
      let interArea := max 0 (interE - interW) * max 0 (interN - interS)
      let area1 := max 0 (e1 - w1) * max 0 (n1 - s1)
      let area2 := max 0 (e2 - w2) * max 0 (n2 - s2)
      let union := if 0 < area1 + area2 - interArea then area1 + area2 - interArea else 1
      interArea / union
  | _, _ => 0

/-- The `quality` block of one query entry. -/
structure Quality where
  spatialResKm : Option ℚ
  temporalRes : Option String
  coverageTemporalPct : ℚ
  coverageSpatialPct : ℚ
  completenessScore : ℚ
  suitabilityForTask : ℚ
  tradeoffs : List String
  recordLengthDays : Option ℤ
  gapDays : ℤ
deriving DecidableEq, Repr

/-- One entry of `summary["queries"]`, restricted to the fields the claims
inspect. -/
structure QueryEntry where
  query : String
  collectionsFound : ℕ
  granulesFound : ℕ
  variablesFound : ℕ
  relatedCollections : List String
  resolutions : List String
  latencyDays : Option ℤ
  temporalGaps : List ℤ
  quality : Quality
  score : ℚ
deriving DecidableEq, Repr

/-- The per-search body of `AnalysisAgent.run`.  The only uncaught exception
site is `float(resolutions[0])`. -/
def perQueryEntry (now : ℚ) (tc : Option (Option ℚ × Option ℚ))
    (bc : Option (ℚ × ℚ × ℚ × ℚ)) (s : SearchResult) : Except String QueryEntry :=
  let ts := granTemporalSpatial s.grans
  let startv := ts.1.1
  let endv := ts.1.2
  let bbox := ts.2
  let recordLengthDays : Option ℤ :=
    match startv, endv with
    | some st, some en => some ⌊en - st⌋
    | _, _ => none
  let resolutions := colResolutions s.cols
  let latencyDays : Option ℤ := endv.map (fun e => ⌊now - e⌋)
  let gaps := temporalGapDays s.grans
  let tDays := temporalOverlapDays startv endv tc
  let sIou := spatialIou bbox bc
  let resScore : ℚ := if resolutions.isEmpty then 0 else 1
  let score : ℚ := ((tDays : ℚ) / 365) * (1/2) + sIou * (3/10) + resScore * (1/5)
  let hasData := !(s.cols.isEmpty && s.grans.isEmpty && s.varItems.isEmpty)
  let missingDays : ℤ := if gaps.isEmpty then 0 else gaps.sum
  let temporalPct : ℚ :=
    match recordLengthDays with
    | some rld => if 0 < rld then pyRound 1 (100 * ((rld : ℚ) - (missingDays : ℚ)) / (rld : ℚ)) else 0
    | none => 0
  let spatialResKm : Except String (Option ℚ) :=
    match resolutions with
    | [] => .ok none
    | r :: _ =>
        match pyFloat r with
        | some x => .ok (some x)
        | none => .error "could not convert string to float"
  spatialResKm.map (fun srk =>
    { query := s.query
      collectionsFound := s.cols.length
      granulesFound := s.grans.length
      variablesFound := s.varItems.length
      relatedCollections := s.cols.filterMap (·.conceptId)
      resolutions := resolutions
      latencyDays := latencyDays
      temporalGaps := gaps
      quality :=
        { spatialResKm := srk
          temporalRes := if hasData then some "hourly" else none
          coverageTemporalPct := temporalPct
          coverageSpatialPct := if hasData then pyRound 1 (sIou * 100) else 0
          completenessScore := if hasData then pyRound 3 (temporalPct / 100) else 0
          suitabilityForTask := if hasData then pyRound 3 score else 0
          tradeoffs := if hasData then ["coarse grid vs long record"] else []
          recordLengthDays := recordLengthDays
          gapDays := missingDays }
      score := pyRound 3 score })

/-- The summary dictionary of `AnalysisAgent.run`, restricted to the fields
the claims inspect. -/
structure AnalysisSummary where
  totalCollections : ℕ
  totalGranules : ℕ
  totalVariables : ℕ
  queries : List QueryEntry
  crossCollectionMapOut : List (String × List ℕ)
deriving DecidableEq, Repr

/-- `AnalysisAgent.run`: accumulate per-search entries and totals, then build
the cross-collection map from the per-query related-collections lists. -/
def analysisRun (now : ℚ) (tc : Option (Option ℚ × Option ℚ))
    (bc : Option (ℚ × ℚ × ℚ × ℚ)) (searches : List SearchResult) :
    Except String AnalysisSummary :=
  (searches.mapM (perQueryEntry now tc bc)).map (fun entries =>
    { totalCollections := (searches.map (fun s => s.cols.length)).sum
      totalGranules := (searches.map (fun s => s.grans.length)).sum
      totalVariables := (searches.map (fun s => s.varItems.length)).sum
      queries := entries
      crossCollectionMapOut := crossCollectionMap (entries.map (·.relatedCollections)) })

/-! ## Shared lemmas -/

lemma allow_iff (cb : CircuitBreaker) (now : ℚ) :
    cb.allow now = true ↔ (cb.openUntil = 0 ∨ cb.openUntil ≤ now) := by
  by_cases h : cb.openUntil ≠ 0 ∧ now < cb.openUntil
  · simp only [CircuitBreaker.allow, if_pos h]
    constructor
    · intro hfalse; exact absurd hfalse (by simp)
    · rintro (h0 | hle)
      · exact absurd h0 h.1
      · exact absurd h.2 (not_lt.mpr hle)
  · simp only [CircuitBreaker.allow, if_neg h]
    constructor
    · intro _
      rcases not_and_or.mp h with h1 | h2
      · exact Or.inl (not_not.mp h1)
      · exact Or.inr (not_lt.mp h2)
    · intro _; trivial

lemma allow_false_iff (cb : CircuitBreaker) (now : ℚ) (hne : cb.openUntil ≠ 0) :
    cb.allow now = false ↔ now < cb.openUntil := by
  constructor
  · intro hf
    by_contra hnlt
    have := (allow_iff cb now).mpr (Or.inr (not_lt.mp hnlt))
    rw [this] at hf
    exact absurd hf (by simp)
  · intro hlt
    cases hall : cb.allow now with
    | false => rfl
    | true =>
        rcases (allow_iff cb now).mp hall with h0 | hle
        · exact absurd h0 hne
        · exact absurd hlt (not_lt.mpr hle)

lemma runOps_allow_id (cb : CircuitBreaker) (ts : List ℚ) :
    runOps cb (ts.map CBOp.allowAt) = cb := by
  induction ts generalizing cb with
  | nil => rfl
  | cons t rest ih =>
      simpa [runOps, CBOp.apply] using ih cb

/-- C1: for every `CircuitBreaker`, `allow()` is true iff the open window is
unset (zero) or the current time is at or past it; `record_success()` resets
the failure count and clears the window; `record_failure()` increments the
count and, once it reaches `failure_threshold` (default 5), opens the window
for `recovery_time_seconds` (default 30) from now; after five consecutive
failures on a fresh default breaker, `allow()` is false before the last
failure time plus 30 seconds and true afterwards. -/
theorem claim_C1 :
    (∀ (cb : CircuitBreaker) (now : ℚ),
        cb.allow now = true ↔ (cb.openUntil = 0 ∨ cb.openUntil ≤ now)) ∧
    (∀ cb : CircuitBreaker,
        cb.recordSuccess.failures = 0 ∧ cb.recordSuccess.openUntil = 0) ∧
    (∀ (cb : CircuitBreaker) (now : ℚ),
        (cb.recordFailure now).failures = cb.failures + 1) ∧
    (∀ (cb : CircuitBreaker) (now : ℚ), cb.failureThreshold ≤ cb.failures + 1 →
        (cb.recordFailure now).openUntil = now + cb.recoveryTimeSeconds) ∧
    (∀ (cb : CircuitBreaker) (now : ℚ), cb.failures + 1 < cb.failureThreshold →
        (cb.recordFailure now).openUntil = cb.openUntil) ∧
    (CircuitBreaker.init.failureThreshold = 5 ∧
      CircuitBreaker.init.recoveryTimeSeconds = 30) ∧
    (∀ t1 t2 t3 t4 t5 now : ℚ, 0 ≤ t5 →
        ((applyFailures CircuitBreaker.init [t1, t2, t3, t4, t5]).allow now = false ↔
          now < t5 + 30)) := by
  refine ⟨allow_iff, ?_, ?_, ?_, ?_, ⟨rfl, rfl⟩, ?_⟩
  · intro cb; exact ⟨rfl, rfl⟩
  · intro cb now; rfl
  · intro cb now h
    simp only [CircuitBreaker.recordFailure, if_pos h]
  · intro cb now h
    simp only [CircuitBreaker.recordFailure, if_neg (not_le.mpr h)]
  · intro t1 t2 t3 t4 t5 now h5
    have e : applyFailures CircuitBreaker.init [t1, t2, t3, t4, t5] =
        { failureThreshold := 5, recoveryTimeSeconds := 30, failures := 5,
          openUntil := t5 + 30 } := by
      simp [applyFailures, CircuitBreaker.recordFailure, CircuitBreaker.init]
    rw [e]
    have hne : (t5 + 30 : ℚ) ≠ 0 := by
      have : (0 : ℚ) < t5 + 30 := by linarith
      exact ne_of_gt this
    exact allow_false_iff _ now hne

/-- Witness for C1 at concrete inputs. -/
theorem claim_C1_witness :
    (CircuitBreaker.init.allow 7 = true ↔
      (CircuitBreaker.init.openUntil = 0 ∨ CircuitBreaker.init.openUntil ≤ 7)) ∧
    ((0 : ℚ) ≤ 5 ∧
      ((applyFailures CircuitBreaker.init [1, 2, 3, 4, 5]).allow 10 = false ↔
        (10 : ℚ) < 5 + 30)) :=
  ⟨claim_C1.1 CircuitBreaker.init 7,
    ⟨by norm_num, claim_C1.2.2.2.2.2.2 1 2 3 4 5 10 (by norm_num)⟩⟩

/-- C10: `allow()` never mutates the breaker, so neither window expiry (a
pure function of the current time) nor any sequence of `allow()` calls
resets the failure count; once the count is at or above the threshold, a
single further `record_failure` immediately re-opens the breaker for a full
recovery window. -/
theorem claim_C10 :
    (∀ (cb : CircuitBreaker) (ts : List ℚ), runOps cb (ts.map CBOp.allowAt) = cb) ∧
    (∀ (cb : CircuitBreaker) (t : ℚ), cb.failureThreshold ≤ cb.failures →
        (cb.recordFailure t).openUntil = t + cb.recoveryTimeSeconds) ∧
    (∀ (cb : CircuitBreaker) (ts : List ℚ) (t now : ℚ),
        cb.failureThreshold ≤ cb.failures → 0 ≤ t → 0 < cb.recoveryTimeSeconds →
        (((runOps cb (ts.map CBOp.allowAt)).recordFailure t).allow now = false ↔
          now < t + cb.recoveryTimeSeconds)) := by
  refine ⟨runOps_allow_id, ?_, ?_⟩
  · intro cb t h
    have h1 : cb.failureThreshold ≤ cb.failures + 1 := le_trans h (Nat.le_succ _)
    simp only [CircuitBreaker.recordFailure, if_pos h1]
  · intro cb ts t now h h0 hrec
    rw [runOps_allow_id]
    have h1 : cb.failureThreshold ≤ cb.failures + 1 := le_trans h (Nat.le_succ _)
    have eopen : (cb.recordFailure t).openUntil = t + cb.recoveryTimeSeconds := by
      simp only [CircuitBreaker.recordFailure, if_pos h1]
    have hne : (cb.recordFailure t).openUntil ≠ 0 := by
      rw [eopen]; exact ne_of_gt (by linarith)
    rw [allow_false_iff _ now hne, eopen]

/-- Witness for C10 at concrete inputs. -/
theorem claim_C10_witness :
    let cb : CircuitBreaker :=
      { failureThreshold := 5, recoveryTimeSeconds := 30, failures := 5, openUntil := 40 }
    cb.failureThreshold ≤ cb.failures ∧ (0 : ℚ) ≤ 50 ∧ (0 : ℚ) < cb.recoveryTimeSeconds ∧
    (((runOps cb ([41, 45].map CBOp.allowAt)).recordFailure 50).allow 60 = false ↔
      (60 : ℚ) < 50 + 30) :=
  ⟨by norm_num, by norm_num, by norm_num,
    claim_C10.2.2 _ [41, 45] 50 60 (by norm_num) (by norm_num) (by norm_num)⟩

lemma safeGetOnce_notOk (cb : CircuitBreaker) (t : ℚ) (o : HttpOutcome)
    (h : noSuccess o = true) (b : String) : (safeGetOnce cb t o).1 ≠ .ok b := by
  unfold safeGetOnce
  by_cases hall : cb.allow t = false
  · simp [hall]
  · simp only [if_neg hall]
    cases o with
    | response st body =>
        have h2 : is2xx st = false := by
          simpa [noSuccess] using h
        simp [h2]
    | transportError m => simp

lemma tenacityGo_attempts (script : ℕ → ℚ × HttpOutcome) :
    ∀ (rem attempt : ℕ) (cb : CircuitBreaker),
      (tenacityGo script attempt rem cb).2.2 ≤ attempt + rem + 1 := by
  intro rem
  induction rem with
  | zero =>
      intro attempt cb
      rw [tenacityGo]
      split
      · simp
      · simp
  | succ r ih =>
      intro attempt cb
      rw [tenacityGo]
      split
      · simp
      · have := ih (attempt + 1) (safeGetOnce cb (script attempt).1 (script attempt).2).2
        simpa [Nat.add_assoc, Nat.add_comm, Nat.add_left_comm] using Nat.le_trans this (by omega)

lemma tenacityGo_exhaust (script : ℕ → ℚ × HttpOutcome)
    (H : ∀ n, noSuccess (script n).2 = true) :
    ∀ (rem attempt : ℕ) (cb : CircuitBreaker),
      (tenacityGo script attempt rem cb).2.2 = attempt + rem + 1 ∧
      ∃ e, (tenacityGo script attempt rem cb).1 = .retryExhausted e := by
  intro rem
  induction rem with
  | zero =>
      intro attempt cb
      rw [tenacityGo]
      rcases hstep : (safeGetOnce cb (script attempt).1 (script attempt).2).1 with b | _ | o2
      · exact absurd hstep (safeGetOnce_notOk _ _ _ (H attempt) b)
      · exact ⟨rfl, ⟨.circuitOpen, rfl⟩⟩
      · exact ⟨rfl, ⟨.httpFailure o2, rfl⟩⟩
  | succ r ih =>
      intro attempt cb
      rw [tenacityGo]
      rcases hstep : (safeGetOnce cb (script attempt).1 (script attempt).2).1 with b | _ | o2
      · exact absurd hstep (safeGetOnce_notOk _ _ _ (H attempt) b)
      · have hih := ih (attempt + 1) (safeGetOnce cb (script attempt).1 (script attempt).2).2
        refine ⟨?_, hih.2⟩
        show (tenacityGo script (attempt + 1) r _).2.2 = attempt + (r + 1) + 1
        rw [hih.1]
        omega
      · have hih := ih (attempt + 1) (safeGetOnce cb (script attempt).1 (script attempt).2).2
        refine ⟨?_, hih.2⟩
        show (tenacityGo script (attempt + 1) r _).2.2 = attempt + (r + 1) + 1
        rw [hih.1]
        omega

lemma waitAfter_client (n : ℕ) :
    waitAfter clientRetryConfig n = min ((1/2 : ℚ) * 2 ^ n) 3 := by
  have h2 : (1 : ℚ) ≤ 2 ^ n := by exact_mod_cast Nat.one_le_two_pow
  have hge : (1/2 : ℚ) ≤ (1/2 : ℚ) * 2 ^ n := by linarith
  unfold waitAfter clientRetryConfig
  exact max_eq_right (le_min hge (by norm_num))

lemma waitAfter_double (n : ℕ) :
    waitAfter clientRetryConfig (n + 1) = min (2 * waitAfter clientRetryConfig n) 3 := by
  have h2 : (1 : ℚ) ≤ 2 ^ n := by exact_mod_cast Nat.one_le_two_pow
  rw [waitAfter_client, waitAfter_client]
  have e1 : (1/2 : ℚ) * 2 ^ (n + 1) = 2 ^ n := by rw [pow_succ]; ring
  rw [e1]
  rcases le_total ((1/2 : ℚ) * 2 ^ n) 3 with hle | hge
  · rw [min_eq_left hle]
    have : (2 : ℚ) * ((1/2 : ℚ) * 2 ^ n) = 2 ^ n := by ring
    rw [this]
  · rw [min_eq_right hge]
    have h6 : (6 : ℚ) ≤ 2 ^ n := by linarith
    rw [min_eq_right (by linarith : (3:ℚ) ≤ 2 ^ n), min_eq_right (by norm_num : (3:ℚ) ≤ 2 * 3)]

/-- C2: for every search-client call through `_safe_get`: a disallowed
breaker fails immediately with the circuit-open error and records no breaker
failure; a transport or non-2xx-status failure records exactly one breaker
failure and propagates; a 2xx response records exactly one breaker success
and returns the decoded body; the call is retried up to 3 attempts, a
circuit-open failure counting as an attempt, ending in a terminal
retry-exhausted error, with exponential backoff configured with minimum
0.5s, cap 3s and factor 2. -/
theorem claim_C2 :
    (∀ (cb : CircuitBreaker) (t : ℚ) (o : HttpOutcome), cb.allow t = false →
        safeGetOnce cb t o = (.circuitOpen, cb)) ∧
    (∀ (cb : CircuitBreaker) (t : ℚ) (m : String), cb.allow t = true →
        safeGetOnce cb t (.transportError m) =
          (.httpFailure (.transportError m), cb.recordFailure t) ∧
        (cb.recordFailure t).failures = cb.failures + 1) ∧
    (∀ (cb : CircuitBreaker) (t : ℚ) (st : ℕ) (body : String),
        cb.allow t = true → is2xx st = false →
        safeGetOnce cb t (.response st body) =
          (.httpFailure (.response st body), cb.recordFailure t)) ∧
    (∀ (cb : CircuitBreaker) (t : ℚ) (st : ℕ) (body : String),
        cb.allow t = true → is2xx st = true →
        safeGetOnce cb t (.response st body) = (.ok body, cb.recordSuccess) ∧
        cb.recordSuccess.failures = 0) ∧
    (∀ (script : ℕ → ℚ × HttpOutcome) (cb : CircuitBreaker),
        (safeGet script cb).2.2 ≤ 3) ∧
    (∀ (script : ℕ → ℚ × HttpOutcome) (cb : CircuitBreaker),
        (∀ n, noSuccess (script n).2 = true) →
        (safeGet script cb).2.2 = 3 ∧
        ∃ e, (safeGet script cb).1 = RetryOutcome.retryExhausted e) ∧
    (∀ (script : ℕ → ℚ × HttpOutcome) (cb : CircuitBreaker),
        (∀ n, n < 3 → cb.allow (script n).1 = false) →
        safeGet script cb = (.retryExhausted .circuitOpen, cb, 3)) ∧
    (clientRetryConfig.maxAttempts = 3 ∧
      waitAfter clientRetryConfig 0 = 1/2 ∧
      (∀ n, 1/2 ≤ waitAfter clientRetryConfig n ∧ waitAfter clientRetryConfig n ≤ 3) ∧
      (∀ n, waitAfter clientRetryConfig (n + 1) =
        min (2 * waitAfter clientRetryConfig n) 3)) := by
  refine ⟨?_, ?_, ?_, ?_, ?_, ?_, ?_, rfl, by norm_num [waitAfter_client], ?_, waitAfter_double⟩
  · intro cb t o h
    simp [safeGetOnce, h]
  · intro cb t m h
    refine ⟨by simp [safeGetOnce, h], ?_⟩
    simp [CircuitBreaker.recordFailure]
  · intro cb t st body h hst
    simp [safeGetOnce, h, hst]
  · intro cb t st body h hst
    exact ⟨by simp [safeGetOnce, h, hst], rfl⟩
  · intro script cb
    simpa [safeGet, clientRetryConfig] using tenacityGo_attempts script 2 0 cb
  · intro script cb H
    have h := tenacityGo_exhaust script H 2 0 cb
    exact ⟨by simpa [safeGet, clientRetryConfig] using h.1,
      by simpa [safeGet, clientRetryConfig] using h.2⟩
  · intro script cb H
    have e0 : safeGetOnce cb (script 0).1 (script 0).2 = (.circuitOpen, cb) := by
      simp [safeGetOnce, H 0 (by norm_num)]
    have e1 : safeGetOnce cb (script 1).1 (script 1).2 = (.circuitOpen, cb) := by
      simp [safeGetOnce, H 1 (by norm_num)]
    have e2 : safeGetOnce cb (script 2).1 (script 2).2 = (.circuitOpen, cb) := by
      simp [safeGetOnce, H 2 (by norm_num)]
    show tenacityGo script 0 2 cb = _
    rw [tenacityGo]
    simp only [e0]
    rw [tenacityGo]
    simp only [e1]
    rw [tenacityGo]
    simp only [e2]
  · intro n
    rw [waitAfter_client]
    have h2 : (1 : ℚ) ≤ 2 ^ n := by exact_mod_cast Nat.one_le_two_pow
    constructor
    · exact le_min (by linarith) (by norm_num)
    · exact min_le_right _ _

/-- Witness for C2 at concrete inputs. -/
theorem claim_C2_witness :
    (CircuitBreaker.init.allow 0 = true ∧
      safeGetOnce CircuitBreaker.init 0 (.transportError "conn reset") =
        (.httpFailure (.transportError "conn reset"), CircuitBreaker.init.recordFailure 0)) ∧
    (is2xx 200 = true ∧
      safeGetOnce CircuitBreaker.init 0 (.response 200 "body") =
        (.ok "body", CircuitBreaker.init.recordSuccess)) ∧
    ((∀ n : ℕ, n < 3 →
        ({ CircuitBreaker.init with openUntil := 100 } : CircuitBreaker).allow
          ((fun _ => ((5 : ℚ), HttpOutcome.transportError "x")) n).1 = false) ∧
      safeGet (fun _ => ((5 : ℚ), HttpOutcome.transportError "x"))
          { CircuitBreaker.init with openUntil := 100 } =
        (.retryExhausted .circuitOpen, { CircuitBreaker.init with openUntil := 100 }, 3)) := by
  refine ⟨⟨by decide, (claim_C2.2.1 CircuitBreaker.init 0 "conn reset" (by decide)).1⟩,
    ⟨rfl, (claim_C2.2.2.2.1 CircuitBreaker.init 0 200 "body" (by decide) rfl).1⟩,
    ⟨fun n _ => by
        show ({ CircuitBreaker.init with openUntil := 100 } : CircuitBreaker).allow 5 = false
        decide,
      claim_C2.2.2.2.2.2.2.1 _ _ (fun n _ => by
        show ({ CircuitBreaker.init with openUntil := 100 } : CircuitBreaker).allow 5 = false
        decide)⟩⟩


/-- The number of distinct years matched in a text, the quantity the claim
about `infer_temporal` speaks of. -/
def distinctYearCount (text : List Char) : ℕ := ((findYears text).dedup).length

lemma sorted_le_getLast {l : List ℕ} (hs : l.Sorted (· ≤ ·)) (hne : l ≠ []) :
    ∀ x ∈ l, x ≤ l.getLast hne := by
  induction l with
  | nil => exact absurd rfl hne
  | cons a t ih =>
      intro x hx
      rcases List.mem_cons.mp hx with rfl | hxt
      · cases t with
        | nil => simp [List.getLast]
        | cons b t2 =>
            rw [List.getLast_cons (List.cons_ne_nil _ _)]
            exact (List.sorted_cons.mp hs).1 _ (List.getLast_mem _)
      · cases t with
        | nil => simp at hxt
        | cons b t2 =>
            rw [List.getLast_cons (List.cons_ne_nil _ _)]
            exact ih (List.sorted_cons.mp hs).2 (List.cons_ne_nil _ _) x hxt

lemma getLastD_cons_eq_getLast (y0 : ℕ) (rest : List ℕ) :
    (y0 :: rest).getLastD 0 = (y0 :: rest).getLast (List.cons_ne_nil _ _) := by
  rw [List.getLastD_eq_getLast?, List.getLast?_eq_getLast _ (List.cons_ne_nil _ _)]
  rfl

lemma mergeSort_le_sorted (l : List ℕ) :
    (l.mergeSort (fun a b => decide (a ≤ b))).Sorted (· ≤ ·) := by
  have hB := @List.sorted_mergeSort ℕ (fun a b : ℕ => decide (a ≤ b))
    (fun a b c hab hbc => by
      simp only [decide_eq_true_eq] at hab hbc ⊢
      exact le_trans hab hbc)
    (fun a b => by
      rcases le_total a b with h | h
      · simp [h]
      · simp [h]) l
  exact hB.imp (fun h => of_decide_eq_true h)

lemma mergeSort_nat_eq (l : List ℕ) :
    l.mergeSort (fun a b => decide (a ≤ b)) = l.insertionSort (· ≤ ·) :=
  List.mergeSort_eq_insertionSort (· ≤ ·) l

/-- C3 counterexample: on the text "2010 2010" the matched years are
`[2010, 2010]`: only one distinct year, yet `infer_temporal` returns a
non-null pair, so returning the null pair is not equivalent to having fewer
than two distinct years. -/
theorem claim_C3_counterexample :
    ¬ (inferTemporal "2010 2010".toList = (none, none) ↔
        distinctYearCount "2010 2010".toList < 2) := by
  have e : inferTemporal "2010 2010".toList =
      (some "2010-01-01T00:00:00Z", some "2010-12-31T23:59:59Z") := by
    simp only [inferTemporal, mergeSort_nat_eq]
    decide
  intro h
  have h2 := h.mpr (by decide)
  rw [e] at h2
  exact absurd h2 (by decide)

/-- C3 (amended: the null pair corresponds to fewer than two year matches
counting repeats, not distinct years): `infer_temporal` returns the null
pair iff the text has fewer than 2 year matches; with at least 2 matches it
returns the start of the minimum matched year and the end of the maximum
matched year. -/
theorem claim_C3 :
    (∀ text : List Char,
        inferTemporal text = (none, none) ↔ (findYears text).length < 2) ∧
    (∀ (text : List Char) (m M : ℕ),
        2 ≤ (findYears text).length →
        (findYears text).min? = some m → (findYears text).max? = some M →
        inferTemporal text = (some (isoStart m), some (isoEnd M))) := by
  constructor
  · intro text
    by_cases h : 2 ≤ (findYears text).length
    · simp only [inferTemporal, if_pos h]
      rcases e : (findYears text).mergeSort (fun a b => decide (a ≤ b)) with _ | ⟨y0, rest⟩
      · have hl := (List.mergeSort_perm (findYears text) (fun a b : ℕ => decide (a ≤ b))).length_eq
        rw [e] at hl
        simp at hl
        omega
      · simp only [e]
        constructor
        · intro hEq
          simp at hEq
        · intro hlt
          omega
    · simp only [inferTemporal, if_neg h]
      constructor
      · intro _
        omega
      · intro _
        trivial
  · intro text m M hlen hm hM
    have hperm := List.mergeSort_perm (findYears text) (fun a b => decide (a ≤ b))
    have hsort := mergeSort_le_sorted (findYears text)
    rcases e : (findYears text).mergeSort (fun a b => decide (a ≤ b)) with _ | ⟨y0, rest⟩
    · have hl := (List.mergeSort_perm (findYears text) (fun a b : ℕ => decide (a ≤ b))).length_eq
      rw [e] at hl
      simp at hl
      omega
    · rw [e] at hsort hperm
      have hmemiff : ∀ x : ℕ, x ∈ y0 :: rest ↔ x ∈ findYears text := fun x => hperm.mem_iff
      obtain ⟨hmMem, hmLb⟩ := List.min?_eq_some_iff'.mp hm
      obtain ⟨hMMem, hMUb⟩ := List.max?_eq_some_iff'.mp hM
      have hy0mem : y0 ∈ findYears text := (hmemiff y0).mp (List.mem_cons_self _ _)
      have h1 : m ≤ y0 := hmLb y0 hy0mem
      have h2 : y0 ≤ m := by
        rcases List.mem_cons.mp ((hmemiff m).mpr hmMem) with heq | hmr
        · exact le_of_eq heq.symm
        · exact (List.sorted_cons.mp hsort).1 m hmr
      have hy0 : y0 = m := le_antisymm h2 h1
      have hglmem : (y0 :: rest).getLastD 0 ∈ findYears text := by
        rw [getLastD_cons_eq_getLast]
        exact (hmemiff _).mp (List.getLast_mem _)
      have h3 : (y0 :: rest).getLastD 0 ≤ M := hMUb _ hglmem
      have h4 : M ≤ (y0 :: rest).getLastD 0 := by
        rw [getLastD_cons_eq_getLast]
        exact sorted_le_getLast hsort (List.cons_ne_nil _ _) M ((hmemiff M).mpr hMMem)
      have hgl : (y0 :: rest).getLastD 0 = M := le_antisymm h3 h4
      simp only [inferTemporal, if_pos hlen, e]
      rw [hgl, hy0]

/-- Witness for C3 at concrete texts. -/
theorem claim_C3_witness :
    (inferTemporal "hello world".toList = (none, none) ↔
      (findYears "hello world".toList).length < 2) ∧
    (2 ≤ (findYears "from 1999 to 2005".toList).length ∧
      (findYears "from 1999 to 2005".toList).min? = some 1999 ∧
      (findYears "from 1999 to 2005".toList).max? = some 2005 ∧
      inferTemporal "from 1999 to 2005".toList =
        (some (isoStart 1999), some (isoEnd 2005))) :=
  ⟨claim_C3.1 _,
    ⟨by decide, by decide, by decide,
      claim_C3.2 "from 1999 to 2005".toList 1999 2005 (by decide) (by decide) (by decide)⟩⟩

lemma dedup_sublist (l : List CmrItem) : ∀ seen : List String,
    List.Sublist (dedupByConceptId l seen) l := by
  induction l with
  | nil => intro seen; simp [dedupByConceptId]
  | cons c rest ih =>
      intro seen
      rw [dedupByConceptId]
      rcases hc : c.conceptId with _ | cid
      · exact (ih seen).cons c
      · by_cases hs : cid ∈ seen
        · simp only [if_pos hs]
          exact (ih seen).cons c
        · simp only [if_neg hs]
          exact (ih (cid :: seen)).cons₂ c

lemma dedup_ids (l : List CmrItem) : ∀ seen : List String,
    ((dedupByConceptId l seen).filterMap CmrItem.conceptId).Nodup ∧
    ∀ cid ∈ (dedupByConceptId l seen).filterMap CmrItem.conceptId, cid ∉ seen := by
  induction l with
  | nil => intro seen; simp [dedupByConceptId]
  | cons c rest ih =>
      intro seen
      rw [dedupByConceptId]
      rcases hc : c.conceptId with _ | cid
      · exact ih seen
      · by_cases hs : cid ∈ seen
        · simp only [if_pos hs]
          exact ih seen
        · simp only [if_neg hs]
          have hrec := ih (cid :: seen)
          constructor
          · simp only [List.filterMap_cons, hc]
            refine List.nodup_cons.mpr ⟨?_, hrec.1⟩
            intro hmem
            exact (hrec.2 cid hmem) (List.mem_cons_self _ _)
          · intro cid2 hmem
            simp only [List.filterMap_cons, hc] at hmem
            rcases List.mem_cons.mp hmem with rfl | htail
            · exact hs
            · intro hseen
              exact (hrec.2 cid2 htail) (List.mem_cons_of_mem _ hseen)

lemma dedup_find? (l : List CmrItem) : ∀ (seen : List String) (cid : String), cid ∉ seen →
    (dedupByConceptId l seen).find? (fun c => c.conceptId == some cid) =
      l.find? (fun c => c.conceptId == some cid) := by
  induction l with
  | nil => intro seen cid _; simp [dedupByConceptId]
  | cons c rest ih =>
      intro seen cid hnin
      rw [dedupByConceptId]
      rcases hc : c.conceptId with _ | cid2
      · rw [List.find?_cons_of_neg _ (by simp [hc])]
        exact ih seen cid hnin
      · by_cases heq : cid2 = cid
        · subst heq
          have hs : cid2 ∉ seen := hnin
          simp only [if_neg hs]
          rw [List.find?_cons_of_pos _ (by simp [hc]), List.find?_cons_of_pos _ (by simp [hc])]
        · by_cases hs : cid2 ∈ seen
          · simp only [if_pos hs]
            rw [List.find?_cons_of_neg _ (by simp [hc, heq])]
            exact ih seen cid hnin
          · simp only [if_neg hs]
            rw [List.find?_cons_of_neg _ (by simp [hc, heq]),
              List.find?_cons_of_neg _ (by simp [hc, heq])]
            refine ih (cid2 :: seen) cid ?_
            intro hmem
            rcases List.mem_cons.mp hmem with h1 | h2
            · exact heq h1.symm
            · exact hnin h2

/-- C4 counterexample: the merged variable item list of a stage is a plain
concatenation, so the same item (same concept id) can appear twice: at an
input with the same variable item returned for two terms, the merged list is
not deduplicated by concept id. -/
theorem claim_C4_counterexample :
    stageVariableItems [[⟨some "V1", "var"⟩], [⟨some "V1", "var"⟩]] =
      [⟨some "V1", "var"⟩, ⟨some "V1", "var"⟩] ∧
    ¬ ((stageVariableItems [[⟨some "V1", "var"⟩], [⟨some "V1", "var"⟩]]).map
        CmrItem.conceptId).Nodup := by
  exact ⟨rfl, by decide⟩

/-- C4 (amended: only the staged-mode collection merge deduplicates): the
collection merge keeps a subsequence of the concatenated inputs (first-seen
order), its concept ids are pairwise distinct, the kept representative of
each id is the first input item carrying it, and every id present in the
inputs survives; the stage variable and granule item lists are plain
concatenations, deduplicated no further. -/
theorem claim_C4 :
    (∀ rls : List (List CmrItem),
        List.Sublist (mergeCollections rls) rls.flatten ∧
        ((mergeCollections rls).filterMap CmrItem.conceptId).Nodup ∧
        (∀ cid : String,
          (mergeCollections rls).find? (fun c => c.conceptId == some cid) =
            rls.flatten.find? (fun c => c.conceptId == some cid)) ∧
        (∀ c ∈ rls.flatten, ∀ cid : String, c.conceptId = some cid →
            cid ∈ (mergeCollections rls).filterMap CmrItem.conceptId)) ∧
    (∀ varResults : List (List CmrItem),
        stageVariableItems varResults = varResults.flatten) ∧
    (∀ granuleResults : List (List CmrItem),
        combinedGranuleItems granuleResults = granuleResults.flatten) := by
  refine ⟨?_, fun _ => rfl, fun _ => rfl⟩
  intro rls
  refine ⟨dedup_sublist _ [], (dedup_ids _ []).1, ?_, ?_⟩
  · intro cid
    exact dedup_find? _ [] cid (List.not_mem_nil cid)
  · intro c hc cid hcid
    have hpc : (fun x : CmrItem => x.conceptId == some cid) c = true := by simp [hcid]
    have hsome : (rls.flatten.find? (fun x => x.conceptId == some cid)).isSome := by
      exact List.find?_isSome.mpr ⟨c, hc, hpc⟩
    rcases Option.isSome_iff_exists.mp hsome with ⟨c2, hc2⟩
    have hfind : (mergeCollections rls).find? (fun x => x.conceptId == some cid) = some c2 := by
      rw [mergeCollections, dedup_find? _ [] cid (List.not_mem_nil cid)]
      exact hc2
    have hc2mem : c2 ∈ mergeCollections rls := List.mem_of_find?_eq_some hfind
    have hc2p : c2.conceptId = some cid := by
      have := List.find?_some hfind
      simpa using this
    exact List.mem_filterMap.mpr ⟨c2, hc2mem, hc2p⟩

/-- Witness for C4 at a concrete merge. -/
theorem claim_C4_witness :
    (⟨some "A", "a2"⟩ : CmrItem) ∈
      ([[⟨some "A", "a1"⟩], [⟨some "A", "a2"⟩, ⟨some "B", "b"⟩]] :
        List (List CmrItem)).flatten ∧
    "A" ∈ (mergeCollections
        [[⟨some "A", "a1"⟩], [⟨some "A", "a2"⟩, ⟨some "B", "b"⟩]]).filterMap
        CmrItem.conceptId :=
  ⟨by decide,
    (claim_C4.1 [[⟨some "A", "a1"⟩], [⟨some "A", "a2"⟩, ⟨some "B", "b"⟩]]).2.2.2
      ⟨some "A", "a2"⟩ (by decide) "A" rfl⟩

/-- C5: evaluation at the failing input.  In a staged run whose only stage
has one circuit-open variable-search failure, the internal
`self.circuit_tripped` attribute ends true, yet the staged branch returns a
dictionary without the `circuit_breaker_tripped` key, so `cmr_step` stores
false and the final response reports false.  A plain-mode run with the same
circuit-open failure reports true. -/
theorem claim_C5_eval :
    ((cmrAgentRunStaged
        [{ varResults := [.err true], kwCols := .ok [], extraResults := [],
           colsByIdErr := none, granuleResults := [] }]).2 = true) ∧
    ((cmrAgentRunStaged
        [{ varResults := [.err true], kwCols := .ok [], extraResults := [],
           colsByIdErr := none, granuleResults := [] }]).1.circuitBreakerTripped = none) ∧
    (finalResponseFlag (cmrStepFlag (cmrAgentRunStaged
        [{ varResults := [.err true], kwCols := .ok [], extraResults := [],
           colsByIdErr := none, granuleResults := [] }]).1) = false) ∧
    (finalResponseFlag (cmrStepFlag (cmrAgentRunPlain
        [{ collectionsCall := .ok [], granulesCall := .ok [],
           variablesCall := .err true }] false).1) = true) := by
  exact ⟨rfl, rfl, rfl, rfl⟩

/-- Dictionary lookup on the ordered association list. -/
def lookupA (m : List (String × List ℕ)) (cid : String) : Option (List ℕ) :=
  (m.find? (fun kv => kv.1 == cid)).map (·.2)

/-- Specification of the occurrence indices: for each query (numbered from
`i`), one copy of its index per occurrence of the id in its list. -/
def occIdx (i : ℕ) : List (List String) → String → List ℕ
  | [], _ => []
  | q :: rest, cid => List.replicate (q.count cid) i ++ occIdx (i + 1) rest cid

/-- The number of distinct queries whose related-collections list mentions
the id: the quantity the claim about the cross-collection map speaks of. -/
def queriesContaining (queries : List (List String)) (cid : String) : ℕ :=
  (queries.filter (fun q => decide (cid ∈ q))).length

lemma appendIdx_lookup_same (m : List (String × List ℕ)) (cid : String) (idx : ℕ) :
    lookupA (appendIdx m cid idx) cid = some ((lookupA m cid).getD [] ++ [idx]) := by
  induction m with
  | nil => simp [appendIdx, lookupA]
  | cons kv rest ih =>
      obtain ⟨k, v⟩ := kv
      by_cases hk : k = cid
      · subst hk
        simp [appendIdx, lookupA]
      · simp only [appendIdx, if_neg hk]
        have hne : (k == cid) = false := by simp [hk]
        simp only [lookupA, List.find?_cons, hne] at ih ⊢
        exact ih

lemma appendIdx_lookup_other (m : List (String × List ℕ)) (cid : String) (idx : ℕ)
    (cid2 : String) (h : cid2 ≠ cid) :
    lookupA (appendIdx m cid idx) cid2 = lookupA m cid2 := by
  induction m with
  | nil =>
      have hne : (cid == cid2) = false := beq_eq_false_iff_ne.mpr (Ne.symm h)
      simp [appendIdx, lookupA, List.find?_cons, hne]
  | cons kv rest ih =>
      obtain ⟨k, v⟩ := kv
      by_cases hk : k = cid
      · subst hk
        have hne : (k == cid2) = false := beq_eq_false_iff_ne.mpr (Ne.symm h)
        simp [appendIdx, lookupA, List.find?_cons, hne]
      · simp only [appendIdx, if_neg hk]
        by_cases hk2 : k = cid2
        · subst hk2
          simp [lookupA, List.find?_cons]
        · have hne : (k == cid2) = false := beq_eq_false_iff_ne.mpr hk2
          simp only [lookupA, List.find?_cons, hne] at ih ⊢
          exact ih

lemma appendIdx_keys_mem (m : List (String × List ℕ)) (cid : String) (idx : ℕ) :
    ∀ x ∈ (appendIdx m cid idx).map Prod.fst, x ∈ m.map Prod.fst ∨ x = cid := by
  induction m with
  | nil =>
      intro x hx
      simp only [appendIdx, List.map_cons, List.map_nil] at hx
      exact Or.inr (by simpa using hx)
  | cons kv rest ih =>
      obtain ⟨k, v⟩ := kv
      by_cases hk : k = cid
      · subst hk
        intro x hx
        left
        simpa [appendIdx] using hx
      · simp only [appendIdx, if_neg hk, List.map_cons]
        intro x hx
        rcases List.mem_cons.mp hx with rfl | hx2
        · exact Or.inl (List.mem_cons_self _ _)
        · rcases ih x hx2 with h1 | h2
          · exact Or.inl (List.mem_cons_of_mem _ h1)
          · exact Or.inr h2

lemma appendIdx_keys_nodup (m : List (String × List ℕ)) (cid : String) (idx : ℕ)
    (h : (m.map Prod.fst).Nodup) : ((appendIdx m cid idx).map Prod.fst).Nodup := by
  induction m with
  | nil => simp [appendIdx]
  | cons kv rest ih =>
      obtain ⟨k, v⟩ := kv
      by_cases hk : k = cid
      · subst hk
        simpa [appendIdx] using h
      · simp only [appendIdx, if_neg hk, List.map_cons]
        rw [List.map_cons] at h
        refine List.nodup_cons.mpr ⟨?_, ih (List.nodup_cons.mp h).2⟩
        intro hmem
        rcases appendIdx_keys_mem rest cid idx k hmem with h1 | h2
        · exact (List.nodup_cons.mp h).1 h1
        · exact hk h2

lemma foldQuery_lookup (q : List String) (i : ℕ) :
    ∀ (m : List (String × List ℕ)) (cid : String),
      lookupA (q.foldl (fun m2 c => appendIdx m2 c i) m) cid =
        if (lookupA m cid).isSome ∨ cid ∈ q then
          some ((lookupA m cid).getD [] ++ List.replicate (q.count cid) i)
        else none := by
  induction q with
  | nil =>
      intro m cid
      by_cases h : (lookupA m cid).isSome
      · rcases Option.isSome_iff_exists.mp h with ⟨v, hv⟩
        simp [hv]
      · have hn : lookupA m cid = none := Option.not_isSome_iff_eq_none.mp h
        simp [hn]
  | cons c rest ih =>
      intro m cid
      simp only [List.foldl_cons]
      rw [ih (appendIdx m c i) cid]
      by_cases hc : c = cid
      · subst hc
        rw [appendIdx_lookup_same]
        have hcount : (c :: rest).count c = rest.count c + 1 := by
          simp [List.count_cons]
        rw [hcount]
        rw [if_pos (Or.inl (by simp)), if_pos (Or.inr (List.mem_cons_self _ _))]
        simp [List.replicate_succ, List.append_assoc]
      · have hcid : cid ≠ c := fun hh => hc hh.symm
        rw [appendIdx_lookup_other m c i cid hcid]
        have hcount : (c :: rest).count cid = rest.count cid := by
          simp [List.count_cons, hc, hcid]
        rw [hcount]
        simp only [List.mem_cons, hcid, false_or]

lemma colToQueries_general (queries : List (List String)) :
    ∀ (i : ℕ) (m : List (String × List ℕ)) (cid : String),
      lookupA ((queries.enumFrom i).foldl
          (fun m iq => iq.2.foldl (fun m2 c => appendIdx m2 c iq.1) m) m) cid =
        if (lookupA m cid).isSome ∨ (∃ q ∈ queries, cid ∈ q) then
          some ((lookupA m cid).getD [] ++ occIdx i queries cid)
        else none := by
  induction queries with
  | nil =>
      intro i m cid
      simp only [List.enumFrom_nil, List.foldl_nil, occIdx]
      by_cases h : (lookupA m cid).isSome
      · rcases Option.isSome_iff_exists.mp h with ⟨v, hv⟩
        simp [hv]
      · have hn : lookupA m cid = none := Option.not_isSome_iff_eq_none.mp h
        simp [hn]
  | cons q rest ih =>
      intro i m cid
      simp only [List.enumFrom_cons, List.foldl_cons]
      rw [ih (i + 1) (q.foldl (fun m2 c => appendIdx m2 c i) m) cid]
      rw [foldQuery_lookup q i m cid]
      by_cases h1 : (lookupA m cid).isSome ∨ cid ∈ q
      · rw [if_pos h1]
        rw [if_pos (Or.inl (by simp))]
        have hout : (lookupA m cid).isSome = true ∨ ∃ q2 ∈ q :: rest, cid ∈ q2 := by
          rcases h1 with ha | hb
          · exact Or.inl ha
          · exact Or.inr ⟨q, List.mem_cons_self _ _, hb⟩
        rw [if_pos hout]
        simp [occIdx, List.append_assoc]
      · rw [if_neg h1]
        push_neg at h1
        have hm : lookupA m cid = none := Option.not_isSome_iff_eq_none.mp h1.1
        have hcount : q.count cid = 0 := List.count_eq_zero.mpr h1.2
        have hocc : occIdx i (q :: rest) cid = occIdx (i + 1) rest cid := by
          simp [occIdx, hcount]
        by_cases h2 : ∃ q2 ∈ rest, cid ∈ q2
        · rw [if_pos (Or.inr h2)]
          have hout : (lookupA m cid).isSome = true ∨ ∃ q2 ∈ q :: rest, cid ∈ q2 := by
            rcases h2 with ⟨q2, hq2, hcid2⟩
            exact Or.inr ⟨q2, List.mem_cons_of_mem _ hq2, hcid2⟩
          rw [if_pos hout, hocc]
          simp [hm]
        · rw [if_neg (by simp [h2])]
          have hout : ¬ ((lookupA m cid).isSome = true ∨ ∃ q2 ∈ q :: rest, cid ∈ q2) := by
            rintro (ha | ⟨q2, hq2, hcid2⟩)
            · rw [hm] at ha
              exact absurd ha (by simp)
            · rcases List.mem_cons.mp hq2 with rfl | hq2r
              · exact h1.2 hcid2
              · exact h2 ⟨q2, hq2r, hcid2⟩
          rw [if_neg hout]

lemma colToQueries_lookup (queries : List (List String)) (cid : String) :
    lookupA (colToQueries queries) cid =
      if ∃ q ∈ queries, cid ∈ q then some (occIdx 0 queries cid) else none := by
  have h := colToQueries_general queries 0 [] cid
  have he : lookupA ([] : List (String × List ℕ)) cid = none := rfl
  rw [he] at h
  simp only [Option.isSome_none, Bool.false_eq_true, false_or, Option.getD_none,
    List.nil_append] at h
  exact h

lemma foldQuery_keys_nodup (q : List String) (i : ℕ) :
    ∀ m, (m.map Prod.fst).Nodup →
      ((q.foldl (fun m2 c => appendIdx m2 c i) m).map Prod.fst).Nodup := by
  induction q with
  | nil => intro m h; exact h
  | cons c rest ih =>
      intro m h
      exact ih _ (appendIdx_keys_nodup _ _ _ h)

lemma colToQueries_keys_nodup (queries : List (List String)) :
    ((colToQueries queries).map Prod.fst).Nodup := by
  suffices hgen : ∀ (l : List (ℕ × List String)) (m : List (String × List ℕ)),
      (m.map Prod.fst).Nodup →
      ((l.foldl (fun m iq => iq.2.foldl (fun m2 c => appendIdx m2 c iq.1) m) m).map
        Prod.fst).Nodup by
    exact hgen _ [] (by simp)
  intro l
  induction l with
  | nil => intro m h; exact h
  | cons iq rest ih =>
      intro m h
      exact ih _ (foldQuery_keys_nodup _ _ _ h)

lemma lookupA_none_of_not_mem (m : List (String × List ℕ)) (cid : String)
    (h : cid ∉ m.map Prod.fst) : lookupA m cid = none := by
  induction m with
  | nil => rfl
  | cons kv rest ih =>
      obtain ⟨k, v⟩ := kv
      have hk : k ≠ cid := by
        intro hh
        exact h (by simp [hh])
      have hne : (k == cid) = false := beq_eq_false_iff_ne.mpr hk
      simp only [lookupA, List.find?_cons, hne]
      have hrest : cid ∉ rest.map Prod.fst := fun hm => h (by simp [hm])
      simpa [lookupA] using ih hrest

lemma lookupA_filter (m : List (String × List ℕ)) (p : String × List ℕ → Bool)
    (cid : String) (hnd : (m.map Prod.fst).Nodup) :
    lookupA (m.filter p) cid =
      (lookupA m cid).bind (fun v => if p (cid, v) then some v else none) := by
  induction m with
  | nil => rfl
  | cons kv rest ih =>
      obtain ⟨k, v⟩ := kv
      rw [List.map_cons] at hnd
      have hknotin := (List.nodup_cons.mp hnd).1
      have hndr := (List.nodup_cons.mp hnd).2
      by_cases hk : k = cid
      · subst hk
        by_cases hp : p (k, v) = true
        · simp [List.filter_cons, hp, lookupA, List.find?_cons]
        · simp only [List.filter_cons, hp, if_false, Bool.false_eq_true]
          have hfilter : k ∉ (rest.filter p).map Prod.fst := by
            intro hm
            rcases List.mem_map.mp hm with ⟨kv2, hkv2, hfst⟩
            exact hknotin (List.mem_map.mpr ⟨kv2, List.mem_of_mem_filter hkv2, hfst⟩)
          rw [lookupA_none_of_not_mem _ _ hfilter]
          simp [lookupA, List.find?_cons, hp]
      · have hne : (k == cid) = false := beq_eq_false_iff_ne.mpr hk
        by_cases hp : p (k, v) = true
        · simp only [List.filter_cons, hp, if_true]
          simp only [lookupA, List.find?_cons, hne]
          simpa [lookupA] using ih hndr
        · simp only [List.filter_cons, hp, if_false, Bool.false_eq_true]
          have h2 := ih hndr
          rw [h2]
          simp [lookupA, List.find?_cons, hne]

lemma occIdx_nil_of_not_mem (queries : List (List String)) (cid : String)
    (h : ¬ ∃ q ∈ queries, cid ∈ q) : ∀ i, occIdx i queries cid = [] := by
  induction queries with
  | nil => intro i; rfl
  | cons q rest ih =>
      intro i
      have hq : cid ∉ q := fun hm => h ⟨q, List.mem_cons_self _ _, hm⟩
      have hrest : ¬ ∃ q2 ∈ rest, cid ∈ q2 := by
        rintro ⟨q2, hq2, hm⟩
        exact h ⟨q2, List.mem_cons_of_mem _ hq2, hm⟩
      simp [occIdx, List.count_eq_zero.mpr hq, ih hrest]

/-- The summary produced on empty search results, used as a concrete
instance below. -/
def emptySummary : AnalysisSummary :=
  { totalCollections := 0, totalGranules := 0, totalVariables := 0,
    queries := [], crossCollectionMapOut := [] }

/-- C6 counterexample: with a single query whose related-collections list
mentions "C1" twice, "C1" appears in only one distinct query yet the
cross-collection map contains it, mapped to the repeated index list
`[0, 0]`; the claim says such an id must be absent. -/
theorem claim_C6_counterexample :
    crossCollectionMap [["C1", "C1"]] = [("C1", [0, 0])] ∧
    queriesContaining [["C1", "C1"]] "C1" = 1 := ⟨rfl, rfl⟩

/-- C6 (amended: multiplicity instead of distinct queries): the
cross-collection map sends each conceptId with at least two occurrences
across the per-query related-collections lists (counting repeats within a
query) to the list of query indices of its occurrences in scan order, and
contains exactly those ids; when ids are unique within each query this
coincides with the distinct-query reading.  The map `analyze` returns is
this map applied to the per-query related-collections lists. -/
theorem claim_C6 :
    (∀ (queries : List (List String)) (cid : String),
        lookupA (crossCollectionMap queries) cid =
          if 2 ≤ (occIdx 0 queries cid).length then some (occIdx 0 queries cid)
          else none) ∧
    (∀ (queries : List (List String)) (kv : String × List ℕ),
        kv ∈ crossCollectionMap queries → 2 ≤ kv.2.length) ∧
    (∀ (now : ℚ) (tc : Option (Option ℚ × Option ℚ)) (bc : Option (ℚ × ℚ × ℚ × ℚ))
        (searches : List SearchResult) (s : AnalysisSummary),
        analysisRun now tc bc searches = .ok s →
        s.crossCollectionMapOut =
          crossCollectionMap (s.queries.map QueryEntry.relatedCollections)) := by
  refine ⟨?_, ?_, ?_⟩
  · intro queries cid
    rw [crossCollectionMap, lookupA_filter _ _ _ (colToQueries_keys_nodup queries),
      colToQueries_lookup]
    by_cases h : ∃ q ∈ queries, cid ∈ q
    · rw [if_pos h]
      by_cases hlen : 2 ≤ (occIdx 0 queries cid).length
      · rw [if_pos hlen]
        have : 1 < (occIdx 0 queries cid).length := hlen
        simp [this]
      · rw [if_neg hlen]
        have : ¬ (1 < (occIdx 0 queries cid).length) := hlen
        simp [this]
    · rw [if_neg h]
      rw [occIdx_nil_of_not_mem queries cid h 0]
      simp
  · intro queries kv hkv
    have := List.of_mem_filter hkv
    simpa using this
  · intro now tc bc searches s h
    rcases he : searches.mapM (perQueryEntry now tc bc) with e | entries
    · rw [analysisRun, he] at h
      simp [Except.map] at h
    · rw [analysisRun, he] at h
      simp only [Except.map] at h
      cases h
      rfl

/-- Witness for C6 at concrete inputs. -/
theorem claim_C6_witness :
    (lookupA (crossCollectionMap [["C1"], ["C1"], ["C2"]]) "C1" =
      if 2 ≤ (occIdx 0 [["C1"], ["C1"], ["C2"]] "C1").length then
        some (occIdx 0 [["C1"], ["C1"], ["C2"]] "C1")
      else none) ∧
    (("C1", [0, 1]) ∈ crossCollectionMap [["C1"], ["C1"], ["C2"]] ∧
      2 ≤ ([0, 1] : List ℕ).length) ∧
    (analysisRun 0 none none [] = .ok emptySummary ∧
      emptySummary.crossCollectionMapOut =
        crossCollectionMap (emptySummary.queries.map QueryEntry.relatedCollections)) :=
  ⟨claim_C6.1 [["C1"], ["C1"], ["C2"]] "C1",
    ⟨by decide, by decide⟩,
    ⟨rfl, claim_C6.2.2 0 none none [] _ rfl⟩⟩

/-- C7: `feasible` equals the conjunction of the four fatal checks
(non-empty query, no banned phrase, not start-year-after-end-year with at
least two years found, recognized region or inferable bounding box); every
triggered reason, fatal or warning, is reported; and
`suggested_alternatives` is the full list of recognized region names exactly
when the region check fails. -/
theorem claim_C7 :
    ∀ (query : List Char) (subqueries : List (List Char)),
      ((validationRun query subqueries).feasible =
        (!vEmptyQ query && !vBanned query &&
          !(!(vYears query).isEmpty && vStartAfterEnd query) && vHasRegion query)) ∧
      ("Empty query" ∈ (validationRun query subqueries).reasons ↔ vEmptyQ query = true) ∧
      ("Very short query; may be ambiguous" ∈ (validationRun query subqueries).reasons ↔
        query.length < 8) ∧
      ("Out-of-scope content detected" ∈ (validationRun query subqueries).reasons ↔
        vBanned query = true) ∧
      ("No temporal bounds detected" ∈ (validationRun query subqueries).reasons ↔
        (vYears query).isEmpty = true) ∧
      ("Start year after end year" ∈ (validationRun query subqueries).reasons ↔
        (!(vYears query).isEmpty && vStartAfterEnd query) = true) ∧
      ("Region not recognized" ∈ (validationRun query subqueries).reasons ↔
        vHasRegion query = false) ∧
      ("High complexity; will decompose into steps" ∈ (validationRun query subqueries).reasons ↔
        5 < subqueries.length) ∧
      ((validationRun query subqueries).suggestedAlternatives =
        if vHasRegion query then [] else REGIONS) := by
  intro query subqueries
  simp only [validationRun]
  by_cases h1 : vEmptyQ query <;>
    by_cases h2 : query.length < 8 <;>
      by_cases h3 : vBanned query <;>
        by_cases h4 : (vYears query).isEmpty <;>
          by_cases h5 : vStartAfterEnd query <;>
            by_cases h6 : vHasRegion query <;>
              by_cases h7 : 5 < subqueries.length <;>
                simp [h1, h2, h3, h4, h5, h6, h7]

lemma foldl_append_only {α : Type} (f : List α → α → List α)
    (hf : ∀ acc x, f acc x = acc ∨ ∃ y, f acc x = acc ++ [y]) :
    ∀ (l : List α) (acc : List α), ∃ d, l.foldl f acc = acc ++ d := by
  intro l
  induction l with
  | nil => intro acc; exact ⟨[], by simp⟩
  | cons x rest ih =>
      intro acc
      rcases hf acc x with h | ⟨y, h⟩
      · rcases ih (f acc x) with ⟨d, hd⟩
        refine ⟨d, ?_⟩
        rw [List.foldl_cons, hd, h]
      · rcases ih (f acc x) with ⟨d, hd⟩
        refine ⟨y :: d, ?_⟩
        rw [List.foldl_cons, hd, h, List.append_assoc]
        rfl

lemma llmStep_append_only : ∀ (acc : List String) (x : String),
    llmStep acc x = acc ∨ ∃ y, llmStep acc x = acc ++ [y] := by
  intro acc x
  simp only [llmStep]
  split
  · exact Or.inr ⟨_, rfl⟩
  · exact Or.inl rfl

lemma dedup_mem_iff (l : List String) : ∀ (acc : List String) (x : String),
    x ∈ l.foldl dedupStep acc ↔ x ∈ acc ∨ x ∈ l := by
  induction l with
  | nil => intro acc x; simp
  | cons t rest ih =>
      intro acc x
      rw [List.foldl_cons]
      by_cases h : t ∈ acc
      · simp only [dedupStep, if_pos h]
        rw [ih acc x]
        constructor
        · rintro (ha | hr)
          · exact Or.inl ha
          · exact Or.inr (List.mem_cons_of_mem _ hr)
        · rintro (ha | hm)
          · exact Or.inl ha
          · rcases List.mem_cons.mp hm with rfl | hr
            · exact Or.inl h
            · exact Or.inr hr
      · simp only [dedupStep, if_neg h]
        rw [ih (acc ++ [t]) x]
        simp only [List.mem_append, List.mem_singleton, List.mem_cons]
        tauto

lemma dedup_nodup (l : List String) : ∀ acc : List String, acc.Nodup →
    (l.foldl dedupStep acc).Nodup := by
  induction l with
  | nil => intro acc h; exact h
  | cons t rest ih =>
      intro acc h
      rw [List.foldl_cons]
      by_cases ht : t ∈ acc
      · simp only [dedupStep, if_pos ht]
        exact ih acc h
      · simp only [dedupStep, if_neg ht]
        refine ih _ ?_
        rw [List.nodup_append]
        exact ⟨h, List.nodup_singleton t, by simpa using ht⟩

lemma baseline_append (terms : List String) :
    ∃ d, baselineSynonyms terms = terms ++ d := by
  rw [baselineSynonyms]
  split
  · exact foldl_append_only _ (fun acc x => by
      by_cases h : x ∈ acc
      · exact Or.inl (by simp [h])
      · exact Or.inr ⟨x, by simp [h]⟩) _ terms
  · exact ⟨[], by simp⟩

lemma mem_expandTerms_of_seed (seeds llmTerms : List String) (x : String)
    (hx : x ∈ seeds.map pyLowerS) (hne : x.isEmpty = false) :
    x ∈ expandTerms seeds llmTerms := by
  rcases List.mem_map.mp hx with ⟨s, hs, hls⟩
  have hs0 : x ∈ seeds.filterMap (fun s => if s.isEmpty then none else some (pyLowerS s)) := by
    refine List.mem_filterMap.mpr ⟨s, hs, ?_⟩
    by_cases he : s.isEmpty
    · exfalso
      have hs0 : s = "" := by
        cases s with
        | mk data =>
            cases data with
            | nil => rfl
            | cons c cs =>
                exfalso
                simp only [String.isEmpty, String.endPos, String.utf8ByteSize,
                  beq_iff_eq] at he
                have hb := congrArg String.Pos.byteIdx he
                have hpos := Char.utf8Size_pos c
                simp at hb
                omega
      rw [hs0] at hls
      rw [← hls] at hne
      exact absurd hne (by decide)
    · rw [if_neg he, hls]
  rcases foldl_append_only llmStep llmStep_append_only llmTerms
      (seeds.filterMap (fun s => if s.isEmpty then none else some (pyLowerS s))) with ⟨d1, hd1⟩
  rcases baseline_append (llmTerms.foldl llmStep
      (seeds.filterMap (fun s => if s.isEmpty then none else some (pyLowerS s)))) with ⟨d2, hd2⟩
  rw [expandTerms]
  rw [dedupKeepFirst, dedup_mem_iff]
  right
  rw [hd2, hd1]
  exact List.mem_append_left _ (List.mem_append_left _ hs0)

lemma bvt_append (l : List String) : ∀ acc : List String, ∃ d,
    l.foldl bvtStep acc = acc ++ d ∧ List.Sublist d (l.map normTerm) := by
  induction l with
  | nil =>
      intro acc
      exact ⟨[], by simp, List.nil_sublist _⟩
  | cons x rest ih =>
      intro acc
      rw [List.foldl_cons, List.map_cons]
      have hstep : bvtStep acc x = acc ∨ bvtStep acc x = acc ++ [normTerm x] := by
        simp only [bvtStep]
        split
        · exact Or.inl rfl
        · split
          · exact Or.inl rfl
          · split
            · exact Or.inl rfl
            · split
              · exact Or.inl rfl
              · exact Or.inr rfl
      rcases hstep with h | h
      · rw [h]
        rcases ih acc with ⟨d, hd, hsub⟩
        exact ⟨d, hd, hsub.cons _⟩
      · rw [h]
        rcases ih (acc ++ [normTerm x]) with ⟨d, hd, hsub⟩
        refine ⟨normTerm x :: d, ?_, hsub.cons₂ _⟩
        rw [hd, List.append_assoc]
        rfl

lemma bvt_mem (l : List String) : ∀ acc : List String, ∀ t ∈ l.foldl bvtStep acc,
    t ∈ acc ∨ (t.isEmpty = false ∧ pyIsDigit (removeHyphens t) = false ∧ t ∉ STOPWORDS) := by
  induction l with
  | nil => intro acc t ht; exact Or.inl ht
  | cons x rest ih =>
      intro acc t ht
      rw [List.foldl_cons] at ht
      rcases ih (bvtStep acc x) t ht with hmem | hprop
      · by_cases c1 : (normTerm x).isEmpty
        · left; simpa [bvtStep, c1] using hmem
        · by_cases c2 : pyIsDigit (removeHyphens (normTerm x))
          · left; simpa [bvtStep, c1, c2] using hmem
          · by_cases c3 : normTerm x ∈ STOPWORDS
            · left; simpa [bvtStep, c1, c2, c3] using hmem
            · by_cases c4 : normTerm x ∈ acc
              · left; simpa [bvtStep, c1, c2, c3, c4] using hmem
              · have hmem2 : t ∈ acc ++ [normTerm x] := by
                  simpa [bvtStep, c1, c2, c3, c4] using hmem
                rcases List.mem_append.mp hmem2 with ha | hb
                · exact Or.inl ha
                · have heq : t = normTerm x := by simpa using hb
                  subst heq
                  exact Or.inr ⟨by simpa using c1, by simpa using c2, c3⟩
      · exact Or.inr hprop

lemma bvt_nodup (l : List String) : ∀ acc : List String, acc.Nodup →
    (l.foldl bvtStep acc).Nodup := by
  induction l with
  | nil => intro acc h; exact h
  | cons x rest ih =>
      intro acc h
      rw [List.foldl_cons]
      refine ih (bvtStep acc x) ?_
      simp only [bvtStep]
      split
      · exact h
      · split
        · exact h
        · split
          · exact h
          · split
            · exact h
            · rw [List.nodup_append]
              rename_i c4
              exact ⟨h, List.nodup_singleton _, by simpa using c4⟩

lemma bvt_mem_of (l : List String) : ∀ (acc : List String) (x : String), x ∈ l →
    normTerm x = x → x.isEmpty = false → pyIsDigit (removeHyphens x) = false →
    x ∉ STOPWORDS → x ∈ l.foldl bvtStep acc := by
  induction l with
  | nil => intro acc x hx; simp at hx
  | cons y rest ih =>
      intro acc x hx hn he hd hs
      rw [List.foldl_cons]
      rcases List.mem_cons.mp hx with rfl | hxr
      · have hin : x ∈ bvtStep acc x := by
          simp only [bvtStep, hn]
          by_cases c4 : x ∈ acc
          · simp [he, hd, hs, c4]
          · simp [he, hd, hs, c4]
        rcases bvt_append rest (bvtStep acc x) with ⟨d, hdd, _⟩
        rw [hdd]
        exact List.mem_append_left _ hin
      · exact ih (bvtStep acc y) x hxr hn he hd hs

lemma afs_eq (vt : List String) :
    addFallbackSynonyms vt =
      if ("rainfall" ∈ vt ∨ "imerg" ∈ vt ∨ "trmm" ∈ vt) ∧ "precipitation" ∉ vt then
        vt ++ ["precipitation"]
      else vt := by
  simp only [addFallbackSynonyms, fallbackSynonyms, List.foldl_cons, List.foldl_nil]
  by_cases h1 : "rainfall" ∈ vt <;>
    by_cases h2 : "imerg" ∈ vt <;>
      by_cases h3 : "trmm" ∈ vt <;>
        by_cases h4 : "precipitation" ∈ vt <;>
          simp [h1, h2, h3, h4, List.mem_append]

/-- C8 counterexample: on the query "- ssa" the planner keeps the token "-",
which consists entirely of hyphens (hence of digits and hyphens): removing
its hyphens leaves the empty string, which Python `isdigit` rejects, so the
numeric-token filter does not drop it. -/
theorem claim_C8_counterexample :
    "-" ∈ planVariableTerms "- ssa" [] [] ∧
    ("-" : String).toList ≠ [] ∧
    (∀ c ∈ ("-" : String).toList, c.isDigit ∨ c = '-') := by
  refine ⟨by decide, by decide, by decide⟩

/-- C8 (amended: the dropped tokens are those that are purely numeric after
removing hyphens, so a token of hyphens alone survives): an input whose
seeds contain "rainfall" yields both "rainfall" and "precipitation"; no
variable term is a stopword; no variable term is numeric after removing
hyphens; the list has no duplicates; and it is the first-seen-order
subsequence of the normalized expanded terms followed only by the appended
fallback synonym. -/
theorem claim_C8 :
    ∀ (userQuery : String) (subqueries llmTerms : List String),
      ("rainfall" ∈ (seedsOf userQuery subqueries).map pyLowerS →
        "rainfall" ∈ planVariableTerms userQuery subqueries llmTerms ∧
        "precipitation" ∈ planVariableTerms userQuery subqueries llmTerms) ∧
      (∀ t ∈ planVariableTerms userQuery subqueries llmTerms, t ∉ STOPWORDS) ∧
      (∀ t ∈ planVariableTerms userQuery subqueries llmTerms,
        pyIsDigit (removeHyphens t) = false) ∧
      (planVariableTerms userQuery subqueries llmTerms).Nodup ∧
      (∃ extra,
        planVariableTerms userQuery subqueries llmTerms =
          buildVariableTerms (planExpandedTerms userQuery subqueries llmTerms) ++ extra ∧
        (extra = [] ∨ extra = ["precipitation"])) ∧
      List.Sublist (buildVariableTerms (planExpandedTerms userQuery subqueries llmTerms))
        ((planExpandedTerms userQuery subqueries llmTerms).map normTerm) := by
  intro userQuery subqueries llmTerms
  have hbvtmem := bvt_mem (planExpandedTerms userQuery subqueries llmTerms) []
  have hbvtnodup := bvt_nodup (planExpandedTerms userQuery subqueries llmTerms) []
    List.nodup_nil
  have hafs := afs_eq (buildVariableTerms (planExpandedTerms userQuery subqueries llmTerms))
  have hvt : planVariableTerms userQuery subqueries llmTerms =
      addFallbackSynonyms (buildVariableTerms
        (planExpandedTerms userQuery subqueries llmTerms)) := rfl
  have hmem_vt : ∀ t ∈ planVariableTerms userQuery subqueries llmTerms,
      t ∈ buildVariableTerms (planExpandedTerms userQuery subqueries llmTerms) ∨
        t = "precipitation" := by
    intro t ht
    rw [hvt, hafs] at ht
    by_cases hcond : ("rainfall" ∈ buildVariableTerms
          (planExpandedTerms userQuery subqueries llmTerms) ∨
        "imerg" ∈ buildVariableTerms (planExpandedTerms userQuery subqueries llmTerms) ∨
        "trmm" ∈ buildVariableTerms (planExpandedTerms userQuery subqueries llmTerms)) ∧
        "precipitation" ∉ buildVariableTerms (planExpandedTerms userQuery subqueries llmTerms)
    · rw [if_pos hcond] at ht
      rcases List.mem_append.mp ht with ha | hb
      · exact Or.inl ha
      · exact Or.inr (by simpa using hb)
    · rw [if_neg hcond] at ht
      exact Or.inl ht
  refine ⟨?_, ?_, ?_, ?_, ?_, ?_⟩
  · intro hrain
    have hrainexp : "rainfall" ∈ planExpandedTerms userQuery subqueries llmTerms :=
      mem_expandTerms_of_seed _ _ _ hrain (by decide)
    have hrainbvt : "rainfall" ∈ buildVariableTerms
        (planExpandedTerms userQuery subqueries llmTerms) :=
      bvt_mem_of _ [] "rainfall" hrainexp (by decide) (by decide) (by decide) (by decide)
    constructor
    · rw [hvt, hafs]
      split
      · exact List.mem_append_left _ hrainbvt
      · exact hrainbvt
    · rw [hvt, hafs]
      by_cases hp : "precipitation" ∈ buildVariableTerms
          (planExpandedTerms userQuery subqueries llmTerms)
      · split
        · exact List.mem_append_left _ hp
        · exact hp
      · rw [if_pos ⟨Or.inl hrainbvt, hp⟩]
        simp
  · intro t ht
    rcases hmem_vt t ht with hb | hp
    · rcases hbvtmem t hb with habs | hprops
      · simp at habs
      · exact hprops.2.2
    · subst hp
      decide
  · intro t ht
    rcases hmem_vt t ht with hb | hp
    · rcases hbvtmem t hb with habs | hprops
      · simp at habs
      · exact hprops.2.1
    · subst hp
      decide
  · rw [hvt, hafs]
    split
    · rename_i hcond
      rw [List.nodup_append]
      exact ⟨hbvtnodup, List.nodup_singleton _, by simpa using hcond.2⟩
    · exact hbvtnodup
  · rw [hvt, hafs]
    split
    · exact ⟨["precipitation"], rfl, Or.inr rfl⟩
    · exact ⟨[], by simp, Or.inl rfl⟩
  · rcases bvt_append (planExpandedTerms userQuery subqueries llmTerms) [] with ⟨d, hd, hsub⟩
    rw [buildVariableTerms, hd]
    simpa using hsub

/-- Witness for C8 at a concrete planner input. -/
theorem claim_C8_witness :
    ("rainfall" ∈ (seedsOf "rainfall over ssa" []).map pyLowerS) ∧
    ("rainfall" ∈ planVariableTerms "rainfall over ssa" [] [] ∧
      "precipitation" ∈ planVariableTerms "rainfall over ssa" [] []) :=
  ⟨by decide, (claim_C8 "rainfall over ssa" [] []).1 (by decide)⟩

/-- The query entry produced for a search whose item lists are all empty. -/
def emptyQueryEntry (q : String) : QueryEntry :=
  ⟨q, 0, 0, 0, [], [], none, [], ⟨none, none, 0, 0, 0, 0, [], none, 0⟩, 0⟩

lemma consecGaps_nil : consecGaps ([] : List (ℚ × ℚ)) = [] := rfl

lemma temporalOverlapDays_none_none (tc : Option (Option ℚ × Option ℚ)) :
    temporalOverlapDays none none tc = 0 := by
  rcases tc with _ | ⟨a, b⟩
  · rfl
  · rcases a with _ | av <;> rcases b with _ | bv <;> rfl

lemma spatialIou_none (bc : Option (ℚ × ℚ × ℚ × ℚ)) : spatialIou none bc = 0 := by
  rcases bc with _ | bb <;> rfl

lemma perQueryEntry_empty (now : ℚ) (tc : Option (Option ℚ × Option ℚ))
    (bc : Option (ℚ × ℚ × ℚ × ℚ)) (s : SearchResult)
    (hc : s.cols = []) (hg : s.grans = []) (hv : s.varItems = []) :
    perQueryEntry now tc bc s = .ok (emptyQueryEntry s.query) := by
  obtain ⟨q, cols, grans, varsI⟩ := s
  simp only at hc hg hv
  subst hc
  subst hg
  subst hv
  simp only [perQueryEntry]
  norm_num [granTemporalSpatial, colResolutions, temporalGapDays, granIntervals,
    List.mergeSort_nil, consecGaps_nil, temporalOverlapDays_none_none, spatialIou_none,
    pyRound, bankersRound, emptyQueryEntry, Except.map]

lemma mapM_empty_searches (now : ℚ) (tc : Option (Option ℚ × Option ℚ))
    (bc : Option (ℚ × ℚ × ℚ × ℚ)) :
    ∀ searches : List SearchResult,
      (∀ s ∈ searches, s.cols = [] ∧ s.grans = [] ∧ s.varItems = []) →
      searches.mapM (perQueryEntry now tc bc) =
        .ok (searches.map (fun s => emptyQueryEntry s.query)) := by
  intro searches
  induction searches with
  | nil => intro _; rfl
  | cons s rest ih =>
      intro h
      have hs := h s (List.mem_cons_self _ _)
      rw [List.mapM_cons, perQueryEntry_empty now tc bc s hs.1 hs.2.1 hs.2.2,
        ih (fun x hx => h x (List.mem_cons_of_mem _ hx))]
      rfl

lemma foldl_nil_queries :
    ∀ (l : List (ℕ × List String)) (m : List (String × List ℕ)),
      (∀ iq ∈ l, iq.2 = ([] : List String)) →
      l.foldl (fun m iq => iq.2.foldl (fun m2 c => appendIdx m2 c iq.1) m) m = m := by
  intro l
  induction l with
  | nil => intro m _; rfl
  | cons iq rest ih =>
      intro m h
      rw [List.foldl_cons, h iq (List.mem_cons_self _ _)]
      exact ih m (fun x hx => h x (List.mem_cons_of_mem _ hx))

lemma crossCollectionMap_all_nil (queries : List (List String))
    (h : ∀ q ∈ queries, q = []) : crossCollectionMap queries = [] := by
  rw [crossCollectionMap, colToQueries]
  rw [foldl_nil_queries]
  · rfl
  · intro iq hiq
    obtain ⟨h1, h2, h3⟩ := List.mem_enumFrom hiq
    rw [h3]
    exact h _ (List.getElem_mem _)

/-- C9: on fully empty search results (no searches, or searches whose
collection, granule and variable item lists are all empty) `analyze` raises
no exception and returns zeroed totals, and every per-query entry carries
`temporal_res = null`, `coverage.temporal_pct = 0.0`,
`completeness_score = 0.0` and empty tradeoffs. -/
theorem claim_C9 :
    ∀ (now : ℚ) (tc : Option (Option ℚ × Option ℚ)) (bc : Option (ℚ × ℚ × ℚ × ℚ))
      (searches : List SearchResult),
      (∀ s ∈ searches, s.cols = [] ∧ s.grans = [] ∧ s.varItems = []) →
      ∃ out : AnalysisSummary,
        analysisRun now tc bc searches = .ok out ∧
        out.totalCollections = 0 ∧ out.totalGranules = 0 ∧ out.totalVariables = 0 ∧
        out.queries.length = searches.length ∧
        (∀ q ∈ out.queries,
          q.collectionsFound = 0 ∧ q.granulesFound = 0 ∧ q.variablesFound = 0 ∧
          q.quality.temporalRes = none ∧ q.quality.coverageTemporalPct = 0 ∧
          q.quality.completenessScore = 0 ∧ q.quality.tradeoffs = []) ∧
        out.crossCollectionMapOut = [] := by
  intro now tc bc searches hemp
  have hm := mapM_empty_searches now tc bc searches hemp
  have hcols : (searches.map (fun s => s.cols.length)).sum = 0 := by
    apply List.sum_eq_zero
    intro x hx
    rcases List.mem_map.mp hx with ⟨s, hs, hlen⟩
    rw [(hemp s hs).1] at hlen
    exact hlen.symm
  have hgrans : (searches.map (fun s => s.grans.length)).sum = 0 := by
    apply List.sum_eq_zero
    intro x hx
    rcases List.mem_map.mp hx with ⟨s, hs, hlen⟩
    rw [(hemp s hs).2.1] at hlen
    exact hlen.symm
  have hvars : (searches.map (fun s => s.varItems.length)).sum = 0 := by
    apply List.sum_eq_zero
    intro x hx
    rcases List.mem_map.mp hx with ⟨s, hs, hlen⟩
    rw [(hemp s hs).2.2] at hlen
    exact hlen.symm
  have hcross : crossCollectionMap
      ((searches.map (fun s => emptyQueryEntry s.query)).map (·.relatedCollections)) = [] := by
    apply crossCollectionMap_all_nil
    intro q hq
    rcases List.mem_map.mp hq with ⟨e, he, hrel⟩
    rcases List.mem_map.mp he with ⟨s, _, hse⟩
    rw [← hse] at hrel
    exact hrel.symm
  have hrun : analysisRun now tc bc searches = .ok
      { totalCollections := 0, totalGranules := 0, totalVariables := 0,
        queries := searches.map (fun s => emptyQueryEntry s.query),
        crossCollectionMapOut := [] } := by
    rw [analysisRun, hm]
    simp only [Except.map]
    rw [hcols, hgrans, hvars, hcross]
  refine ⟨_, hrun, rfl, rfl, rfl, by simp, ?_, rfl⟩
  intro q hq
  rcases List.mem_map.mp hq with ⟨s2, _, hse⟩
  rw [← hse]
  exact ⟨rfl, rfl, rfl, rfl, rfl, rfl, rfl⟩

/-- Witness for C9 at a concrete one-search input. -/
theorem claim_C9_witness :
    (∀ s ∈ ([⟨"q", [], [], []⟩] : List SearchResult),
        s.cols = [] ∧ s.grans = [] ∧ s.varItems = []) ∧
    ∃ out : AnalysisSummary,
      analysisRun 0 none none [⟨"q", [], [], []⟩] = .ok out ∧
      out.totalCollections = 0 ∧ out.totalGranules = 0 ∧ out.totalVariables = 0 ∧
      out.queries.length = 1 ∧
      (∀ q ∈ out.queries,
        q.collectionsFound = 0 ∧ q.granulesFound = 0 ∧ q.variablesFound = 0 ∧
        q.quality.temporalRes = none ∧ q.quality.coverageTemporalPct = 0 ∧
        q.quality.completenessScore = 0 ∧ q.quality.tradeoffs = []) ∧
      out.crossCollectionMapOut = [] :=
  ⟨by decide, claim_C9 0 none none [⟨"q", [], [], []⟩] (by decide)⟩
